import Mathlib

/-!
# Walker-population management of miniAFQMC: a shallow embedding

The definitions below follow `src/Walkers/SharedWalkerSet.cpp`.  C++ `int`
values are integers (signed overflow is undefined behaviour in the source and is
not modelled), `RealType` values are exact rationals, and `ComplexType` is a pair
of rationals.  A routine that may call `APP_ABORT` yields an `Outcome`.
-/

namespace qmcplusplus
namespace afqmc

/-! ## Data model -/

/-- Complex scalar stored in the walker buffer (real and imaginary part). -/
structure ComplexType where
  re : ℚ
  im : ℚ
deriving DecidableEq

/-- The complex scalar `ComplexType(0)`. -/
def ComplexType.zero : ComplexType := ⟨0, 0⟩

/-- Product of a complex scalar with a real factor, the `*=` used on a weight. -/
def ComplexType.scale (w : ComplexType) (w0 : ℚ) : ComplexType := ⟨w.re * w0, w.im * w0⟩

/-- Walker shape variants.  The enumeration is declared in a header that is not
part of the sources at hand; `CLOSED`, `COLLINEAR` and `NONCOLLINEAR` are the
values `setup` tests for, and `UNDEFINED_WALKER_TYPE` stands for any other value. -/
inductive WALKER_TYPES where
  | UNDEFINED_WALKER_TYPE
  | CLOSED
  | COLLINEAR
  | NONCOLLINEAR
deriving DecidableEq

/-- Load-balance policies. -/
inductive LOAD_BALANCE_ALGORITHMS where
  | SYNC
  | ASYNC
deriving DecidableEq

/-- Branching (population-control) policies. -/
inductive BRANCHING_ALGORITHMS where
  | PAIR
  | SERIAL_COMB
  | MIN_BRANCH
  | COMB
deriving DecidableEq

/-- The table `data_displ`, one entry per field of a walker record. -/
structure DataDispl where
  SM : Int
  WEIGHT : Int
  PHASE : Int
  PSEUDO_ELOC_ : Int
  E1_ : Int
  EXX_ : Int
  EJ_ : Int
  OVLP : Int
  PROPAGATORS : Int
  HEAD : Int
  TAIL : Int
  SMN : Int
  COS_FAC : Int
  WEIGHT_FAC : Int
deriving DecidableEq

/-- State of a `SharedWalkerSet` as one process sees it.  `walker_buffer` is the
shared arena, a flat sequence of scalars holding `walker_size` scalars per row. -/
structure SharedWalkerSet where
  NMO : Int
  NAEA : Int
  NAEB : Int
  nback_prop : Int
  walkerType : WALKER_TYPES
  load_balance : LOAD_BALANCE_ALGORITHMS
  pop_control : BRANCHING_ALGORITHMS
  wlk_desc : List Int
  data_displ : DataDispl
  walker_size : Int
  walker_memory_usage : Int
  tot_num_walkers : Int
  targetN_per_TG : Int
  targetN : Int
  min_weight : ℚ
  max_weight : ℚ
  walker_buffer : List ComplexType
  nwalk_counts_new : List Int
  nwalk_counts_old : List Int
  rng : Nat
deriving DecidableEq

/-- The task group `TG` as seen from one process: whether the process is the
coordinator of its node group (`TG.TG_local().root()`), the populations held by
the other node groups, and the statistics vector its coordinator broadcasts. -/
structure TaskGroup where
  root : Bool
  otherTGs : List Int
  received : List ComplexType
deriving DecidableEq

/-- Result of a routine that may call `APP_ABORT`: it either returns with a state,
or aborts with a message, carrying the state reached when the abort is raised.
Messages are written without their trailing line breaks. -/
inductive Outcome (σ : Type) where
  | returned : σ → Outcome σ
  | aborted : String → σ → Outcome σ
deriving DecidableEq

/-- The state an outcome carries. -/
def Outcome.state {σ : Type} : Outcome σ → σ
  | .returned s => s
  | .aborted _ s => s

/-- Whether the routine returned normally. -/
def Outcome.isReturned {σ : Type} : Outcome σ → Bool
  | .returned _ => true
  | .aborted _ _ => false

/-! ## Collaborators declared outside the sources at hand -/

/-- Modelled from the spec: `TG.getNumberOfTGs()`, the number of node groups, this
one included. -/
def TaskGroup.getNumberOfTGs (tg : TaskGroup) : Int := (tg.otherTGs.length : Int) + 1

/-- Modelled from the spec: `GlobalPopulation()`, absent from the sources, is the
global sum across node groups of the local populations (a collective reduction). -/
def GlobalPopulation (tg : TaskGroup) (s : SharedWalkerSet) : Int :=
  s.tot_num_walkers + tg.otherTGs.sum

/-- Modelled from the spec: `capacity()`, absent from the sources, is the number of
allocated buffer rows, the buffer length divided by `walker_size`. -/
def capacity (s : SharedWalkerSet) : Int := (s.walker_buffer.length : Int) / s.walker_size

/-- Modelled from the spec: `SHM_Buffer::resize`, absent from the sources, makes the
arena hold `m` scalars and copies the existing contents; new scalars are zero. -/
def SHM_Buffer_resize (buf : List ComplexType) (m : Int) : List ComplexType :=
  buf.take m.toNat ++ List.replicate (m.toNat - buf.length) ComplexType.zero

/-- Modelled from the spec: row `i` of the view `get_walkers_matrix()`, the record
of walker `i`, made of `ws` consecutive scalars of the buffer. -/
def getRow (ws : Nat) (buf : List ComplexType) (i : Nat) : List ComplexType :=
  (buf.drop (i * ws)).take ws

/-- Modelled from the spec: the assignment `W[i] = r` through the view
`get_walkers_matrix()`, which overwrites the `ws` scalars of row `i`. -/
def setRow (ws : Nat) (buf : List ComplexType) (i : Nat) (r : List ComplexType) :
    List ComplexType :=
  buf.take (i * ws) ++ r ++ buf.drop ((i + 1) * ws)

/-! ## `reserve` and `resize` -/

/-- `SharedWalkerSet::reserve(n)`: grows the buffer to `walker_size*n` scalars when
the capacity is below `n`. -/
def reserve (n : Int) (s : SharedWalkerSet) : SharedWalkerSet :=
  if capacity s < n then
    { s with walker_buffer := SHM_Buffer_resize s.walker_buffer (s.walker_size * n) }
  else s

/-- The loop `while(pos < n) { W[pos++] = W[i0]; i0 = (i0+1)%tot_num_walkers; }` of
`resize`.  The first argument counts the iterations left: `pos` grows by one per
iteration, so the loop entered at `pos` runs `n - pos` times.  The dividend of `%`
is never negative, where the C++ remainder and `%` on integers agree. -/
def resizeCopy (ws : Nat) (tot : Int) :
    Nat → Int → Int → List ComplexType → List ComplexType
  | 0, _, _, W => W
  | m + 1, pos, i0, W =>
    resizeCopy ws tot m (pos + 1) ((i0 + 1) % tot)
      (setRow ws W pos.toNat (getRow ws W i0.toNat))

/-- The block `if(n > tot_num_walkers) { if(TG.TG_local().root()) { ... } }` of
`resize`: the coordinator of the node group fills rows `tot_num_walkers .. n-1`. -/
def resizeFill (tg : TaskGroup) (n : Int) (s : SharedWalkerSet) : SharedWalkerSet :=
  if n > s.tot_num_walkers then
    if tg.root then
      let W := resizeCopy s.walker_size.toNat s.tot_num_walkers
        (n - s.tot_num_walkers).toNat s.tot_num_walkers 0 s.walker_buffer
      { s with walker_buffer := W }
    else s
  else s

/-- `SharedWalkerSet::resize(n)`. -/
def resize (tg : TaskGroup) (n : Int) (s : SharedWalkerSet) : Outcome SharedWalkerSet :=
  if s.tot_num_walkers = 0 then
    .aborted "error: empty set in resize(n)." s
  else
    let s2 := resizeFill tg n (reserve n s)
    let s3 := { s2 with tot_num_walkers := n }
    let s4 := { s3 with targetN_per_TG := s3.tot_num_walkers }
    let s5 := { s4 with targetN := GlobalPopulation tg s4 }
    if s5.targetN ≠ s5.targetN_per_TG * tg.getNumberOfTGs then
      .aborted "Error in SharedWalkerSet::resize(n)." s5
    else .returned s5

/-! ## `setup` -/

/-- Modelled from the spec: `sizeof(ComplexType)`, the type being declared outside
the sources at hand; a complex scalar is two doubles, sixteen bytes. -/
def sizeof_ComplexType : Int := 16

/-- The branch on `walkerType` at the top of `setup`: the descriptor `wlk_desc` it
stores and the locals `(nrow, ncol, ndim_bp)` it derives, or `none` on the branch
that aborts. -/
def setupShape (s : SharedWalkerSet) : Option (List Int × Int × Int × Int) :=
  let ncol := s.NAEA
  let nrow := s.NMO
  let ndim_bp := s.NMO
  if s.walkerType = .CLOSED then
    some ([s.NMO, s.NAEA, 0, s.nback_prop], nrow, ncol, ndim_bp)
  else if s.walkerType = .COLLINEAR then
    some ([s.NMO, s.NAEA, s.NAEB, s.nback_prop], nrow, ncol + s.NAEB, ndim_bp)
  else if s.walkerType = .NONCOLLINEAR then
    some ([2 * s.NMO, s.NAEA + s.NAEB, 0, s.nback_prop], nrow + s.NMO, ncol + s.NAEB,
      ndim_bp * 2)
  else none

/-- The local `bp_size` of `setup`. -/
def bp_size (nback_prop ndim_bp : Int) : Int := nback_prop * ndim_bp * ndim_bp

/-- The offset table built by `setup` from the running counter `cnt`, returned with
the final value of `cnt`. -/
def setupDispl (nback_prop nrow ncol ndim_bp : Int) : DataDispl × Int :=
  let cnt : Int := 0
  let dSM := cnt
  let cnt := cnt + nrow * ncol
  let dWEIGHT := cnt
  let cnt := cnt + 1
  let dPHASE := cnt
  let cnt := cnt + 1
  let dPSEUDO_ELOC := cnt
  let cnt := cnt + 1
  let dE1 := cnt
  let cnt := cnt + 1
  let dEXX := cnt
  let cnt := cnt + 1
  let dEJ := cnt
  let cnt := cnt + 1
  let dOVLP := cnt
  let cnt := cnt + 1
  if nback_prop > 0 then
    let dPROPAGATORS := cnt
    let cnt := cnt + bp_size nback_prop ndim_bp
    let dHEAD := cnt
    let cnt := cnt + 1
    let dTAIL := cnt
    let cnt := cnt + 1
    let dSMN := cnt
    let cnt := cnt + nrow * ncol
    let dCOS_FAC := cnt
    let cnt := cnt + nback_prop
    let dWEIGHT_FAC := cnt
    let cnt := cnt + nback_prop
    (⟨dSM, dWEIGHT, dPHASE, dPSEUDO_ELOC, dE1, dEXX, dEJ, dOVLP,
      dPROPAGATORS, dHEAD, dTAIL, dSMN, dCOS_FAC, dWEIGHT_FAC⟩, cnt)
  else
    (⟨dSM, dWEIGHT, dPHASE, dPSEUDO_ELOC, dE1, dEXX, dEJ, dOVLP, -1, -1, -1, -1, -1, -1⟩, cnt)

/-- `SharedWalkerSet::setup()`.  The timers it registers are not part of the
state.  On the last branch the text sent to `app_error` is the abort message. -/
def setup (s : SharedWalkerSet) : Outcome SharedWalkerSet :=
  match setupShape s with
  | none => .aborted " Error: Incorrect walker_type on SharedWalkerSet::setup " s
  | some (desc, nrow, ncol, ndim_bp) =>
    let layout := setupDispl s.nback_prop nrow ncol ndim_bp
    .returned
      { s with
        wlk_desc := desc
        data_displ := layout.1
        walker_size := layout.2
        walker_memory_usage := layout.2 * sizeof_ComplexType
        tot_num_walkers := 0
        min_weight := max |s.min_weight| (1 / 100) }

/-! ## `popControl` -/

/-- The routines `popControl` calls that are declared outside the sources at hand:
`BasicWalkerData` fills the statistics vector from the walkers, `SerialBranching`
rewrites the local population and the overflow rows `Wexcess` (it reads the
policy, the thresholds, `nwalk_counts_old` and the random source from the walker
set), and `loadBalance` exchanges the overflow rows across node groups. -/
structure Collaborators where
  BasicWalkerData : SharedWalkerSet → List ComplexType
  SerialBranching :
    SharedWalkerSet → List (List ComplexType) → SharedWalkerSet × List (List ComplexType)
  loadBalance : SharedWalkerSet → List (List ComplexType) → SharedWalkerSet

/-- The loop of `scaleWeight` over the first `i` walkers: `W[i][off] *= w0`. -/
def scaleWeightLoop (ws off : Nat) (w0 : ℚ) : Nat → List ComplexType → List ComplexType
  | 0, W => W
  | i + 1, W =>
    let W1 := scaleWeightLoop ws off w0 i W
    W1.set (i * ws + off) ((W1.getD (i * ws + off) ComplexType.zero).scale w0)

/-- Modelled from the spec: `scaleWeight(w0)`, absent from the sources, multiplies
the weight of every local walker, the scalar at offset `data_displ[WEIGHT]` of its
row, by the factor it is given. -/
def scaleWeight (w0 : ℚ) (s : SharedWalkerSet) : SharedWalkerSet :=
  let W := scaleWeightLoop s.walker_size.toNat s.data_displ.WEIGHT.toNat w0
    s.tot_num_walkers.toNat s.walker_buffer
  { s with walker_buffer := W }

/-- The weights of the local walkers, in the order of their rows. -/
def weights (s : SharedWalkerSet) : List ComplexType :=
  (List.range s.tot_num_walkers.toNat).map fun i =>
    s.walker_buffer.getD (i * s.walker_size.toNat + s.data_displ.WEIGHT.toNat) ComplexType.zero

/-- The part of `popControl` between the safety check and the branching: the
coordinator gathers the statistics and rescales the weights, the statistics are
broadcast within the node group, and the coordinator fills `nwalk_counts_new`. -/
def popControlStats (coll : Collaborators) (tg : TaskGroup) (s : SharedWalkerSet)
    (curData : List ComplexType) : SharedWalkerSet × List ComplexType :=
  let gathered : SharedWalkerSet × List ComplexType :=
    if tg.root then
      let cd := coll.BasicWalkerData s
      let scl : ℚ := 1 / (cd.getD 0 ComplexType.zero).re
      (scaleWeight scl s, cd)
    else (s, curData)
  let s1 := gathered.1
  let curData1 := if tg.root then gathered.2 else tg.received
  let s2 :=
    if tg.root then
      let counts := List.replicate (tg.otherTGs.length + 1) s1.targetN_per_TG
      { s1 with nwalk_counts_new := counts }
    else s1
  (s2, curData1)

/-- The end of `popControl`: `loadBalance(Wexcess)` and the check on exit. -/
def popControlBalance (coll : Collaborators) (s : SharedWalkerSet)
    (Wexcess : List (List ComplexType)) (curData : List ComplexType) :
    Outcome (SharedWalkerSet × List ComplexType) :=
  let s1 := coll.loadBalance s Wexcess
  if s1.tot_num_walkers ≠ s1.targetN_per_TG then
    .aborted " Error: tot_num_walkers != targetN_per_TG" (s1, curData)
  else .returned (s1, curData)

/-- `SharedWalkerSet::popControl(curData)`; the outcome carries the walker set and
the statistics vector `curData`. -/
def popControl (coll : Collaborators) (tg : TaskGroup) (s : SharedWalkerSet) :
    Outcome (SharedWalkerSet × List ComplexType) :=
  let curData := List.replicate 7 ComplexType.zero
  if s.tot_num_walkers ≠ s.targetN_per_TG then
    .aborted "Error: tot_num_walkers!=targetN_per_TG" (s, curData)
  else
    let st := popControlStats coll tg s curData
    let Wexcess : List (List ComplexType) := []
    if st.1.pop_control = .PAIR ∨ st.1.pop_control = .SERIAL_COMB
        ∨ st.1.pop_control = .MIN_BRANCH then
      let br := if tg.root then coll.SerialBranching st.1 Wexcess else (st.1, Wexcess)
      popControlBalance coll br.1 br.2 st.2
    else if st.1.pop_control = .COMB then
      .aborted " Error: Distributed comb not implemented yet. " st
    else popControlBalance coll st.1 Wexcess st.2

/-! ## `clean` and the layout as a whole -/

/-- `SharedWalkerSet::clean()`: the buffer is replaced by a new one of size 0 and the
three counts are set to zero; the second component is the value returned. -/
def clean (s : SharedWalkerSet) : SharedWalkerSet × Bool :=
  ({ s with walker_buffer := [], tot_num_walkers := 0, targetN := 0, targetN_per_TG := 0 },
    true)

/-- The fourteen entries of `data_displ` in the order of the enumeration `SM`,
`WEIGHT`, ..., `WEIGHT_FAC`. -/
def DataDispl.toList (d : DataDispl) : List Int :=
  [d.SM, d.WEIGHT, d.PHASE, d.PSEUDO_ELOC_, d.E1_, d.EXX_, d.EJ_, d.OVLP,
    d.PROPAGATORS, d.HEAD, d.TAIL, d.SMN, d.COS_FAC, d.WEIGHT_FAC]

/-- The sizes of the fourteen slots of a walker record as the specification lists
them: `SM(nrow*ncol)`, seven scalars, `PROPAGATORS(nback_prop*ndim_bp^2)`, `HEAD(1)`,
`TAIL(1)`, `SMN(nrow*ncol)`, `COS_FAC(nback_prop)`, `WEIGHT_FAC(nback_prop)`. -/
def slotSizes (nback_prop nrow ncol ndim_bp : Int) : List Int :=
  [nrow * ncol, 1, 1, 1, 1, 1, 1, 1, nback_prop * ndim_bp ^ 2, 1, 1, nrow * ncol,
    nback_prop, nback_prop]

/-- The slots of a walker record, each with its offset and its size. -/
def slots (d : DataDispl) (nback_prop nrow ncol ndim_bp : Int) : List (Int × Int) :=
  d.toList.zip (slotSizes nback_prop nrow ncol ndim_bp)

/-- The part of the state that `setup` fixes for the run: record size, memory use,
walker descriptor and offset table. -/
def layoutOf (s : SharedWalkerSet) : Int × Int × List Int × DataDispl :=
  (s.walker_size, s.walker_memory_usage, s.wlk_desc, s.data_displ)

/-! ## Work partition of the shared-memory kernels of `afqmc_sys`

The kernels of `src/AFQMC/afqmc_sys_shm.hpp` are run by every member of a node
group.  What is embedded here is which walker data each member writes: a write is
a pair of the walker index and the spin component (0 for alpha, 1 for beta) whose
field or matrix is assigned.  `ncores_per_TG` is the size of the group and
`core_rank` the rank of the member; both are non-negative. -/

namespace afqmc_sys

/-- `calculate_overlaps`: the loop
`for(n=0; n<nw; n++) { if(n%ncores_per_TG != core_rank) continue; W_data[n][2] = ...; W_data[n][3] = ...; }`,
as the list of the writes of the member `core_rank`; the first argument counts the
iterations left and the second is `n`. -/
def overlapsLoop (ncores_per_TG core_rank : Nat) : Nat → Nat → List (Nat × Nat)
  | 0, _ => []
  | k + 1, n =>
    if n % ncores_per_TG ≠ core_rank then overlapsLoop ncores_per_TG core_rank k (n + 1)
    else (n, 0) :: (n, 1) :: overlapsLoop ncores_per_TG core_rank k (n + 1)

/-- The loop that `calculate_mixed_density_matrix`, `propagate` and `orthogonalize`
have in common:
`for(n=0, cnt=0; n<nwalk; n++) { if(cnt%ncores_per_TG == core_rank) {alpha part}  cnt++; if(cnt%ncores_per_TG == core_rank) {beta part}  cnt++; }`,
as the list of the writes of the member `core_rank`; the first argument counts the
iterations left, the second is `n` and the third is `cnt`. -/
def spinLoop (ncores_per_TG core_rank : Nat) : Nat → Nat → Nat → List (Nat × Nat)
  | 0, _, _ => []
  | k + 1, n, cnt =>
    let alpha := if cnt % ncores_per_TG = core_rank then [(n, 0)] else []
    let cnt := cnt + 1
    let beta := if cnt % ncores_per_TG = core_rank then [(n, 1)] else []
    let cnt := cnt + 1
    alpha ++ beta ++ spinLoop ncores_per_TG core_rank k (n + 1) cnt

/-- Writes of `calculate_overlaps` over `nw` walkers: `W_data[n][2]` and
`W_data[n][3]`. -/
def calculate_overlaps (ncores_per_TG core_rank nw : Nat) : List (Nat × Nat) :=
  overlapsLoop ncores_per_TG core_rank nw 0

/-- Writes of `calculate_mixed_density_matrix` over `nwalk` walkers: `W_data[n][2]`
with the alpha block of `G`, and `W_data[n][3]` with the beta block. -/
def calculate_mixed_density_matrix (ncores_per_TG core_rank nwalk : Nat) : List (Nat × Nat) :=
  spinLoop ncores_per_TG core_rank nwalk 0 0

/-- Writes of `propagate` over `nwalk` walkers: the matrices `W[nw][0]` and
`W[nw][1]`. -/
def propagate (ncores_per_TG core_rank nwalk : Nat) : List (Nat × Nat) :=
  spinLoop ncores_per_TG core_rank nwalk 0 0

/-- Writes of `orthogonalize` over the walkers of `W`: the matrices `W[i][0]` and
`W[i][1]`. -/
def orthogonalize (ncores_per_TG core_rank nwalk : Nat) : List (Nat × Nat) :=
  spinLoop ncores_per_TG core_rank nwalk 0 0

end afqmc_sys

/-- The work units of a kernel over `nwalk` walkers, one per walker and spin
component, are shared out among the `g` members of a node group: member `r`
processes exactly the units `(n, sp)` with `(2n + sp) mod g = r` and processes none
twice, every unit has exactly one member that processes it, distinct members have
no unit in common, and the members process `2*nwalk` units in all. -/
def UnitPartition (kernel : Nat → Nat → Nat → List (Nat × Nat)) (g nwalk : Nat) : Prop :=
  (∀ r n sp, (n, sp) ∈ kernel g r nwalk ↔ n < nwalk ∧ sp < 2 ∧ (2 * n + sp) % g = r) ∧
  (∀ r, (kernel g r nwalk).Nodup) ∧
  (∀ n sp, n < nwalk → sp < 2 → ∃! r, r < g ∧ (n, sp) ∈ kernel g r nwalk) ∧
  (∀ r r', r ≠ r' → ∀ u, u ∈ kernel g r nwalk → u ∉ kernel g r' nwalk) ∧
  ((List.range g).map fun r => (kernel g r nwalk).length).sum = 2 * nwalk

/-! ## `AFQMCInfo` -/

/-- The structure `AFQMCInfo` of `src/AFQMC/AFQMCInfo.hpp`. -/
structure AFQMCInfo where
  name : String
  NMO : Int
  NAEA : Int
  NAEB : Int
  MS2 : Int
deriving DecidableEq

/-- The default constructor of `AFQMCInfo`. -/
def AFQMCInfo.default : AFQMCInfo :=
  { name := "miniAFQMC", NMO := -1, NAEA := -1, NAEB := -1, MS2 := 0 }

/-- `AFQMCInfo::checkAFQMCInfoState()`, a member function that is not `const`: the
value returned, and the object after the call. -/
def AFQMCInfo.checkAFQMCInfoState (a : AFQMCInfo) : Bool × AFQMCInfo :=
  if a.NMO < 1 ∨ a.NAEA < 1 ∨ a.NAEB < 1 ∨ a.NAEA > a.NMO ∨ a.NAEB > a.NMO then
    (false, a)
  else (true, a)

/-! ## Message sizes of `ma_communications.hpp`

Each routine hands one buffer to one MPI call; what is embedded is the count and
the datatype of that call, for an array of `num_elements` elements of
`sizeofType` bytes each. -/

/-- The buffer argument of an MPI call: the number of items and the size of one
item in bytes (1 for `MPI_CHAR`, 8 for `MPI_DOUBLE`). -/
structure MPIBuffer where
  count : Nat
  datatype : Nat
deriving DecidableEq

/-- The number of bytes an MPI call moves through its buffer. -/
def MPIBuffer.bytes (b : MPIBuffer) : Nat := b.count * b.datatype

/-- The size in bytes of `MPI_CHAR`. -/
def MPI_CHAR : Nat := 1

/-- The storage of an array: `num_elements` elements of `sizeofType` bytes. -/
def storageBytes (num_elements sizeofType : Nat) : Nat := num_elements * sizeofType

namespace ma

/-- `ma::isend`: `MPI_Isend(source.origin(), source.num_elements()*sizeof(Type), MPI_CHAR, ...)`. -/
def isend (num_elements sizeofType : Nat) : MPIBuffer := ⟨num_elements * sizeofType, MPI_CHAR⟩

/-- `ma::irecv`: `MPI_Irecv(source.origin(), source.num_elements()*sizeof(Type), MPI_CHAR, ...)`. -/
def irecv (num_elements sizeofType : Nat) : MPIBuffer := ⟨num_elements * sizeofType, MPI_CHAR⟩

/-- `ma::send`: `MPI_Send(source.origin(), source.num_elements()*sizeof(Type), MPI_CHAR, ...)`. -/
def send (num_elements sizeofType : Nat) : MPIBuffer := ⟨num_elements * sizeofType, MPI_CHAR⟩

/-- `ma::recv`: `MPI_Recv(source.origin(), source.num_elements()*sizeof(Type), MPI_CHAR, ...)`. -/
def recv (num_elements sizeofType : Nat) : MPIBuffer := ⟨num_elements * sizeofType, MPI_CHAR⟩

/-- `ma::bcast`: `MPI_Bcast(source.origin(), 2*source.num_elements()*sizeof(Type), MPI_CHAR, ...)`. -/
def bcast (num_elements sizeofType : Nat) : MPIBuffer :=
  ⟨2 * num_elements * sizeofType, MPI_CHAR⟩

end ma

/-! ## `ma::allgather_matrix`

The routine is collective: every rank of the communicator calls it with its own
`source` and `dest` and with the same `type`.  It is embedded as one function of
the ranks' arrays, indexed by rank. -/

/-- Sum of two complex scalars. -/
def ComplexType.add (a b : ComplexType) : ComplexType := ⟨a.re + b.re, a.im + b.im⟩

/-- A two-dimensional array with contiguous rows (`strides()[1] == 1`,
`strides()[0] == shape()[1]`): its shape and its elements by row and column. -/
structure MultiArray2D where
  shape0 : Nat
  shape1 : Nat
  elem : Nat → Nat → ComplexType

/-- The sum of `f 0, ..., f (size-1)`, one term per rank. -/
def rankSum : Nat → (Nat → ComplexType) → ComplexType
  | 0, _ => ComplexType.zero
  | p + 1, f => (rankSum p f).add (f p)

/-- The call `MPI_Allreduce(MPI_IN_PLACE, buf, ..., MPI_DOUBLE, MPI_SUM, comm)` of the MPI
library: the buffer of every rank becomes the elementwise sum of the buffers of the
`size` ranks. -/
def MPI_Allreduce_SUM (size : Nat) (bufs : Nat → Nat → Nat → ComplexType) :
    Nat → Nat → ComplexType :=
  fun i j => rankSum size fun q => bufs q i j

/-- The call `MPI_Allgather` of the MPI library on whole arrays of `rows` rows each:
the receive buffer of every rank is the sequence of the ranks' send buffers, in the
order of the ranks. -/
def MPI_Allgather (rows : Nat) (bufs : Nat → Nat → Nat → ComplexType) :
    Nat → Nat → ComplexType :=
  fun i j => bufs (i / rows) (i % rows) j

/-- What the `byCols` branch writes into `dest` on rank `rank` before the reduction:
`std::fill_n(dest.origin(), dest.num_elements(), 0)`, then the columns
`rank*shape()[1] .. (rank+1)*shape()[1]` receive `source`. -/
def allgather_byCols_local (rank : Nat) (source : MultiArray2D) : Nat → Nat → ComplexType :=
  fun i j =>
    if rank * source.shape1 ≤ j ∧ j < (rank + 1) * source.shape1 then
      source.elem i (j - rank * source.shape1)
    else ComplexType.zero

/-- `ma::allgather_matrix(comm, source, dest, type)` on a communicator of `size` ranks.
`byRows` and `byCols` are the two gather types, constants declared outside the
sources at hand.  The assertions on the shapes abort when they fail on some rank;
those on the strides hold for every `MultiArray2D`. -/
def allgather_matrix (byRows byCols : Int) (size : Nat) (source dest : Nat → MultiArray2D)
    (type : Int) : Outcome (Nat → MultiArray2D) :=
  if type = byRows then
    if (List.range size).all fun q =>
        (source q).shape0 * size == (dest q).shape0 && (source q).shape1 == (dest q).shape1
    then
      .returned fun q =>
        { dest q with
          elem := MPI_Allgather (source q).shape0 fun q' => (source q').elem }
    else .aborted "assert" dest
  else if type = byCols then
    if (List.range size).all fun q =>
        (source q).shape0 == (dest q).shape0 && (source q).shape1 * size == (dest q).shape1
    then
      .returned fun q =>
        { dest q with
          elem := MPI_Allreduce_SUM size fun q' => allgather_byCols_local q' (source q') }
    else .aborted "assert" dest
  else .aborted " Error in ma::gather_matrix. " dest

/-! ## The `all_reduce` test of `mpi3` -/

namespace mpi3

/-- Modelled from the spec: `communicator::all_reduce` with its default operation,
declared outside the sources at hand, is the collective sum reduction of the
process-group abstraction: every rank receives, for each of the `count` positions,
the sum over the `size` ranks of the entries of their send buffers; `sends q` is
the send buffer of rank `q`. -/
def all_reduce (size : Nat) (sends : Nat → List Int) (count : Nat) : List Int :=
  (List.range count).map fun i => ((List.range size).map fun q => (sends q).getD i 0).sum

/-- Modelled from the spec: `communicator::all_reduce_value(v, std::plus<>{})`, declared
outside the sources at hand, returns on every rank the sum over the ranks of their
values; `v q` is the value of rank `q`. -/
def all_reduce_value (size : Nat) (v : Nat → Int) : Int :=
  ((List.range size).map v).sum

/-- The vector filled by `iota(send_buffer.begin(), send_buffer.end(), 0)`. -/
def iota (count : Nat) : List Int := (List.range count).map fun i : Nat => (i : Int)

/-- The first block of `mpi3::main` on one rank of a world of `size` ranks, with
`count` for the 120 of the source: whether every assertion
`recv_buffer[i] == i*world.size()` holds. -/
def main_all_reduce (size count : Nat) : Bool :=
  let send_buffer := iota count
  let recv_buffer := all_reduce size (fun _ => send_buffer) count
  (List.range recv_buffer.length).all fun i => recv_buffer.getD i (-1) == (i : Int) * size

/-- The second block of `mpi3::main`: whether the assertion
`total == world.size()*(world.size()-1)/2` holds, `total` being the reduction of the
ranks' own rank numbers. -/
def main_all_reduce_value (size : Nat) : Bool :=
  all_reduce_value size (fun q => (q : Int)) == (size : Int) * ((size : Int) - 1) / 2

/-- `mpi3::main` of the test up to its second block: `none` when the assertion
`world.size() > 1` fails, otherwise whether the assertions of the two blocks hold. -/
def main (size count : Nat) : Option Bool :=
  if size > 1 then some (main_all_reduce size count && main_all_reduce_value size)
  else none

end mpi3

/-! ## PAIR branching

`SerialBranching` is declared outside the sources at hand; `popControl` only calls
it.  The PAIR strategy is embedded from its description in the specification, on
the weights of the walkers and on which sampled state each walker carries. -/

namespace PairBranching

/-- Modelled from the spec: a walker as the branching strategy sees it, the sampled
state it carries (`id`) and its weight. -/
structure Walker where
  id : Nat
  weight : ℚ
deriving DecidableEq

/-- The total weight of a population. -/
def totalWeight (pop : List Walker) : ℚ := (pop.map fun w => w.weight).sum

/-- The population in the order of increasing weight. -/
def byWeight (pop : List Walker) : List Walker :=
  pop.insertionSort fun a b => a.weight ≤ b.weight

/-- Modelled from the spec: one pairing of the PAIR strategy, which "pairs the walker
of currently-lowest surviving weight with the walker of currently-highest,
combining/splitting them so total weight between the pair is conserved exactly and
only one survives with probability proportional to its share".  With `u` the uniform
variate drawn for the pairing, the walker of highest weight survives when `u` is
below its share of the pair's weight, otherwise the walker of lowest weight; the
survivor takes both places, each with half the weight of the pair. -/
def pairStep (u : ℚ) (pop : List Walker) : List Walker :=
  match byWeight pop with
  | [] => []
  | [w] => [w]
  | lo :: v :: rest =>
    let hi := (v :: rest).getLastD lo
    let mid := (v :: rest).dropLast
    let t := lo.weight + hi.weight
    let s := if u < hi.weight / t then hi.id else lo.id
    ⟨s, t / 2⟩ :: (mid ++ [⟨s, t / 2⟩])

/-- Whether the weight of a walker lies in `[min_weight, max_weight]`. -/
def inRange (min_weight max_weight : ℚ) (w : Walker) : Bool :=
  decide (min_weight ≤ w.weight) && decide (w.weight ≤ max_weight)

/-- Modelled from the spec: the PAIR strategy, "repeat until no walker lies outside
`[min_weight, max_weight]`", drawing one variate per pairing from the given sequence;
`none` when the sequence is used up before the population is in range. -/
def pairBranching (min_weight max_weight : ℚ) : List ℚ → List Walker → Option (List Walker)
  | [], pop => if pop.all (inRange min_weight max_weight) then some pop else none
  | u :: us, pop =>
    if pop.all (inRange min_weight max_weight) then some pop
    else pairBranching min_weight max_weight us (pairStep u pop)

/-- The toy population of the specification: weights 0.001, 0.5, 0.5 and 3.0. -/
def toy : List Walker := [⟨0, 1 / 1000⟩, ⟨1, 1 / 2⟩, ⟨2, 1 / 2⟩, ⟨3, 3⟩]

end PairBranching

/-! ## Concrete instances -/

/-- A scalar with the given real part. -/
def real (x : ℚ) : ComplexType := ⟨x, 0⟩

/-- A walker set holding two walkers of two scalars each, in a buffer of two rows. -/
def twoWalkers : SharedWalkerSet :=
  { NMO := 1, NAEA := 1, NAEB := 1, nback_prop := 0, walkerType := .CLOSED,
    load_balance := .ASYNC, pop_control := .PAIR, wlk_desc := [1, 1, 0, 0],
    data_displ := ⟨0, 1, 0, 0, 0, 0, 0, 0, -1, -1, -1, -1, -1, -1⟩, walker_size := 2,
    walker_memory_usage := 32, tot_num_walkers := 2, targetN_per_TG := 2, targetN := 2,
    min_weight := 1 / 100, max_weight := 4,
    walker_buffer := [real 1, real 2, real 3, real 4],
    nwalk_counts_new := [], nwalk_counts_old := [], rng := 0 }

/-- The coordinator of the only node group of a run. -/
def singleGroup : TaskGroup := ⟨true, [], []⟩

/-- The coordinator of one of four node groups, the other three holding `m` walkers. -/
def fourGroups (m : Int) : TaskGroup := ⟨true, [m, m, m], []⟩

/-- A statistics vector of seven scalars whose entry 0 is `x`. -/
def statsWith (x : ℚ) : List ComplexType := real x :: List.replicate 6 ComplexType.zero

/-- Collaborators that report the statistics vector `cd`, branch no walker and move
no walker between node groups. -/
def passive (cd : List ComplexType) : Collaborators :=
  ⟨fun _ => cd, fun s W => (s, W), fun s _ => s⟩

/-- Three closed-shell walkers with `nmo = naea = 1` and no back propagation, laid
out in records of eight scalars with the weight at offset 1; the weights are 2, 3
and 5. -/
def threeWeights : SharedWalkerSet :=
  { NMO := 1, NAEA := 1, NAEB := 1, nback_prop := 0, walkerType := .CLOSED,
    load_balance := .ASYNC, pop_control := .PAIR, wlk_desc := [1, 1, 0, 0],
    data_displ := ⟨0, 1, 2, 3, 4, 5, 6, 7, -1, -1, -1, -1, -1, -1⟩, walker_size := 8,
    walker_memory_usage := 128, tot_num_walkers := 3, targetN_per_TG := 3, targetN := 3,
    min_weight := 1 / 100, max_weight := 4,
    walker_buffer :=
      [real 1, real 2, real 1, real 0, real 0, real 0, real 0, real 1,
       real 1, real 3, real 1, real 0, real 0, real 0, real 0, real 1,
       real 1, real 5, real 1, real 0, real 0, real 0, real 0, real 1],
    nwalk_counts_new := [], nwalk_counts_old := [], rng := 0 }

/-- A walker set before `setup`: the configuration is given, the layout and the
counts are zero and the buffer is empty. -/
def unconfigured (walkerType : WALKER_TYPES) (nmo naea naeb nback_prop : Int) :
    SharedWalkerSet :=
  { NMO := nmo, NAEA := naea, NAEB := naeb, nback_prop := nback_prop,
    walkerType := walkerType, load_balance := .ASYNC, pop_control := .PAIR, wlk_desc := [],
    data_displ := ⟨0, 0, 0, 0, 0, 0, 0, 0, 0, 0, 0, 0, 0, 0⟩, walker_size := 0,
    walker_memory_usage := 0, tot_num_walkers := 0, targetN_per_TG := 0, targetN := 0,
    min_weight := 0, max_weight := 0, walker_buffer := [],
    nwalk_counts_new := [], nwalk_counts_old := [], rng := 0 }

/-- The source of rank `q` in a gather of two-by-two matrices: entry `(i, j)` is
`100*q + 10*i + j`. -/
def gatherSource (q : Nat) : MultiArray2D := ⟨2, 2, fun i j => real (100 * q + 10 * i + j)⟩

/-- A two-by-four destination filled with `-1`. -/
def gatherDest (_ : Nat) : MultiArray2D := ⟨2, 4, fun _ _ => real (-1)⟩

/-! ## Rows of the walker buffer -/

theorem getElem?_getRow (ws : Nat) (B : List ComplexType) (j q : Nat) :
    (getRow ws B j)[q]? = if q < ws then B[j * ws + q]? else none := by
  unfold getRow
  by_cases h : q < ws
  · simp [h, List.getElem?_take, List.getElem?_drop]
  · simp [h, List.getElem?_take]

theorem getElem?_setRow (ws : Nat) (B : List ComplexType) (i : Nat) (r : List ComplexType)
    (hr : r.length = ws) (hB : i * ws + ws ≤ B.length) (p : Nat) :
    (setRow ws B i r)[p]? =
      if p < i * ws then B[p]? else if p < i * ws + ws then r[p - i * ws]? else B[p]? := by
  unfold setRow
  have e : (i + 1) * ws = i * ws + ws := Nat.succ_mul i ws
  rw [e]
  by_cases h1 : p < i * ws
  · rw [if_pos h1, List.append_assoc, List.getElem?_append_left (by simp; omega)]
    simp [List.getElem?_take, h1]
  · rw [if_neg h1, List.append_assoc, List.getElem?_append_right (by simp; omega)]
    have hl : (List.take (i * ws) B).length = i * ws := by simp; omega
    rw [hl]
    by_cases h2 : p < i * ws + ws
    · rw [if_pos h2, List.getElem?_append_left (by omega)]
    · rw [if_neg h2, List.getElem?_append_right (by omega), List.getElem?_drop, hr]
      congr 1
      omega

theorem length_getRow (ws : Nat) (B : List ComplexType) (j : Nat)
    (hB : j * ws + ws ≤ B.length) : (getRow ws B j).length = ws := by
  unfold getRow
  simp
  omega

theorem length_setRow (ws : Nat) (B : List ComplexType) (i : Nat) (r : List ComplexType)
    (hr : r.length = ws) (hB : i * ws + ws ≤ B.length) :
    (setRow ws B i r).length = B.length := by
  unfold setRow
  have e : (i + 1) * ws = i * ws + ws := Nat.succ_mul i ws
  simp [e, hr]
  omega

theorem getRow_setRow_same (ws : Nat) (B : List ComplexType) (i : Nat) (r : List ComplexType)
    (hr : r.length = ws) (hB : i * ws + ws ≤ B.length) :
    getRow ws (setRow ws B i r) i = r := by
  apply List.ext_getElem?
  intro q
  rw [getElem?_getRow, getElem?_setRow ws B i r hr hB]
  by_cases h : q < ws
  · rw [if_pos h, if_neg (by omega), if_pos (by omega)]
    congr 1
    omega
  · rw [if_neg h]
    symm
    apply List.getElem?_eq_none
    omega

theorem rows_le (ws : Nat) {a b : Nat} (h : a + 1 ≤ b) : a * ws + ws ≤ b * ws := by
  have := Nat.mul_le_mul_right ws h
  rw [Nat.succ_mul] at this
  exact this

theorem getRow_setRow_ne (ws : Nat) (B : List ComplexType) (i j : Nat) (r : List ComplexType)
    (hr : r.length = ws) (hB : i * ws + ws ≤ B.length) (hij : j ≠ i) :
    getRow ws (setRow ws B i r) j = getRow ws B j := by
  apply List.ext_getElem?
  intro q
  rw [getElem?_getRow, getElem?_getRow, getElem?_setRow ws B i r hr hB]
  by_cases h : q < ws
  · rw [if_pos h, if_pos h]
    rcases Nat.lt_or_gt_of_ne hij with hlt | hgt
    · have := rows_le ws (Nat.succ_le_of_lt hlt)
      rw [if_pos (by omega)]
    · have := rows_le ws (Nat.succ_le_of_lt hgt)
      rw [if_neg (by omega), if_neg (by omega)]
  · rw [if_neg h, if_neg h]

theorem resizeCopy_spec (ws k : Nat) (hk : 0 < k) (tot : Int) (htot : tot = (k : Int)) :
    ∀ (m j : Nat) (pos i0 : Int) (W : List ComplexType),
      pos = ((k + j : Nat) : Int) → i0 = ((j % k : Nat) : Int) →
      (k + j + m) * ws ≤ W.length →
      (resizeCopy ws tot m pos i0 W).length = W.length ∧
      (∀ r, r < k + j → getRow ws (resizeCopy ws tot m pos i0 W) r = getRow ws W r) ∧
      (∀ i, i < m →
        getRow ws (resizeCopy ws tot m pos i0 W) (k + j + i) = getRow ws W ((j + i) % k)) := by
  intro m
  induction m with
  | zero =>
    intro j pos i0 W _ _ _
    simp [resizeCopy]
  | succ m ih =>
    intro j pos i0 W hpos hi0 hlen
    have hjk : j % k < k := Nat.mod_lt j hk
    have hdst : (k + j) * ws + ws ≤ W.length :=
      le_trans (rows_le ws (by omega)) hlen
    have hsrc : (j % k) * ws + ws ≤ W.length :=
      le_trans (rows_le ws (by omega)) hlen
    have hrow : (getRow ws W (j % k)).length = ws := length_getRow ws W _ hsrc
    have hp : pos.toNat = k + j := by rw [hpos]; exact Int.toNat_natCast _
    have hi : i0.toNat = j % k := by rw [hi0]; exact Int.toNat_natCast _
    have hW1 : (setRow ws W (k + j) (getRow ws W (j % k))).length = W.length :=
      length_setRow ws W _ _ hrow hdst
    have hpos1 : pos + 1 = ((k + (j + 1) : Nat) : Int) := by rw [hpos]; push_cast; ring
    have hi01 : (i0 + 1) % tot = (((j + 1) % k : Nat) : Int) := by
      rw [hi0, htot]
      push_cast
      exact Int.emod_add_emod _ _ _
    have hlen1 : (k + (j + 1) + m) * ws ≤ (setRow ws W (k + j) (getRow ws W (j % k))).length := by
      rw [hW1]
      have e : k + (j + 1) + m = k + j + (m + 1) := by omega
      rw [e]
      exact hlen
    obtain ⟨ih1, ih2, ih3⟩ := ih (j + 1) (pos + 1) ((i0 + 1) % tot) _ hpos1 hi01 hlen1
    simp only [resizeCopy, hp, hi]
    refine ⟨by rw [ih1, hW1], ?_, ?_⟩
    · intro r hr
      rw [ih2 r (by omega), getRow_setRow_ne ws W _ _ _ hrow hdst (by omega)]
    · intro i hi'
      cases i with
      | zero =>
        rw [Nat.add_zero, Nat.add_zero, ih2 (k + j) (by omega),
          getRow_setRow_same ws W _ _ hrow hdst]
      | succ i =>
        have e1 : k + j + (i + 1) = k + (j + 1) + i := by omega
        have e2 : j + (i + 1) = j + 1 + i := by omega
        have hlt : (j + 1 + i) % k < k := Nat.mod_lt _ hk
        rw [e1, e2, ih3 i (by omega), getRow_setRow_ne ws W _ _ _ hrow hdst (by omega)]

theorem getRow_append_left (ws : Nat) (B X : List ComplexType) (r : Nat)
    (hB : r * ws + ws ≤ B.length) : getRow ws (B ++ X) r = getRow ws B r := by
  apply List.ext_getElem?
  intro q
  rw [getElem?_getRow, getElem?_getRow]
  by_cases h : q < ws
  · rw [if_pos h, if_pos h, List.getElem?_append_left (by omega)]
  · rw [if_neg h, if_neg h]

theorem wf_rows (s : SharedWalkerSet) (hk : 1 ≤ s.tot_num_walkers)
    (hcap : s.tot_num_walkers ≤ capacity s) :
    0 < s.walker_size ∧
      s.tot_num_walkers.toNat * s.walker_size.toNat ≤ s.walker_buffer.length := by
  unfold capacity at hcap
  have hws : 0 < s.walker_size := by
    by_contra hneg
    have := Int.ediv_nonpos (Int.natCast_nonneg s.walker_buffer.length) (not_lt.mp hneg)
    omega
  refine ⟨hws, ?_⟩
  have h1 := (Int.le_ediv_iff_mul_le hws).mp hcap
  have e1 : ((s.tot_num_walkers.toNat : Nat) : Int) = s.tot_num_walkers :=
    Int.toNat_of_nonneg (by omega)
  have e2 : ((s.walker_size.toNat : Nat) : Int) = s.walker_size :=
    Int.toNat_of_nonneg (by omega)
  have : ((s.tot_num_walkers.toNat * s.walker_size.toNat : Nat) : Int)
      ≤ (s.walker_buffer.length : Int) := by
    push_cast
    rw [e1, e2]
    exact h1
  exact_mod_cast this

theorem reserve_tot (n : Int) (s : SharedWalkerSet) :
    (reserve n s).tot_num_walkers = s.tot_num_walkers := by
  unfold reserve; split <;> rfl

theorem reserve_walker_size (n : Int) (s : SharedWalkerSet) :
    (reserve n s).walker_size = s.walker_size := by
  unfold reserve; split <;> rfl

theorem reserve_rows (n : Int) (s : SharedWalkerSet) (hn : 0 ≤ n) (hws : 0 < s.walker_size)
    (k : Nat) (hk : k * s.walker_size.toNat ≤ s.walker_buffer.length) :
    n.toNat * s.walker_size.toNat ≤ (reserve n s).walker_buffer.length ∧
      ∀ r, r < k → getRow s.walker_size.toNat (reserve n s).walker_buffer r
        = getRow s.walker_size.toNat s.walker_buffer r := by
  have e2 : ((s.walker_size.toNat : Nat) : Int) = s.walker_size :=
    Int.toNat_of_nonneg (by omega)
  have e3 : ((n.toNat : Nat) : Int) = n := Int.toNat_of_nonneg hn
  unfold reserve
  split
  · rename_i hlt
    unfold capacity at hlt
    have h1 := (Int.ediv_lt_iff_lt_mul hws).mp hlt
    have hm : (s.walker_size * n).toNat = n.toNat * s.walker_size.toNat := by
      have : s.walker_size * n = ((n.toNat * s.walker_size.toNat : Nat) : Int) := by
        push_cast; rw [e2, e3]; ring
      rw [this]; exact Int.toNat_natCast _
    have hlen : s.walker_buffer.length < n.toNat * s.walker_size.toNat := by
      have : (s.walker_buffer.length : Int) < ((n.toNat * s.walker_size.toNat : Nat) : Int) := by
        push_cast; rw [e2, e3]; exact h1
      exact_mod_cast this
    simp only [SHM_Buffer_resize, hm]
    rw [List.take_of_length_le (le_of_lt hlen)]
    refine ⟨by simp; omega, ?_⟩
    intro r hr
    exact getRow_append_left _ _ _ _ (le_trans (rows_le _ (by omega)) hk)
  · rename_i hge
    unfold capacity at hge
    have h1 := (Int.le_ediv_iff_mul_le hws).mp (not_lt.mp hge)
    refine ⟨?_, fun r _ => rfl⟩
    have : ((n.toNat * s.walker_size.toNat : Nat) : Int) ≤ (s.walker_buffer.length : Int) := by
      push_cast; rw [e2, e3]; exact h1
    exact_mod_cast this

/-! ## Properties of `resize` -/

theorem resize_state (tg : TaskGroup) (n : Int) (s : SharedWalkerSet)
    (h : s.tot_num_walkers ≠ 0) :
    (resize tg n s).state =
      { resizeFill tg n (reserve n s) with
        tot_num_walkers := n, targetN_per_TG := n, targetN := n + tg.otherTGs.sum } := by
  unfold resize
  rw [if_neg h]
  simp only [GlobalPopulation]
  split <;> rfl

theorem resize_isReturned (tg : TaskGroup) (n : Int) (s : SharedWalkerSet)
    (h : s.tot_num_walkers ≠ 0) :
    (resize tg n s).isReturned = true ↔ n + tg.otherTGs.sum = n * tg.getNumberOfTGs := by
  unfold resize
  rw [if_neg h]
  simp only [GlobalPopulation]
  split
  · rename_i hne
    simp [Outcome.isReturned]
    exact hne
  · rename_i hne
    simp [Outcome.isReturned]
    exact not_not.mp hne

/-- C1: for a non-empty walker set of size `k ≥ 1` (holding its `k` records, so
`k ≤ capacity`) and every `n > k`, the state reached by `resize(n)`, whose buffer
is written by the coordinator of the node group, has `tot_num_walkers == n`, and
for every `i` with `0 ≤ i < n-k` the record at index `k+i` equals the record that
was at index `i mod k` before the call; the call returns normally when the global
population sum is consistent. -/
theorem resize_grow_round_robin (tg : TaskGroup) (s : SharedWalkerSet) (n : Int)
    (hroot : tg.root = true) (hk : 1 ≤ s.tot_num_walkers)
    (hcap : s.tot_num_walkers ≤ capacity s) (hn : s.tot_num_walkers < n) :
    (n + tg.otherTGs.sum = n * tg.getNumberOfTGs → (resize tg n s).isReturned = true) ∧
    (resize tg n s).state.tot_num_walkers = n ∧
    ∀ i : Int, 0 ≤ i → i < n - s.tot_num_walkers →
      getRow s.walker_size.toNat (resize tg n s).state.walker_buffer
          (s.tot_num_walkers + i).toNat
        = getRow s.walker_size.toNat s.walker_buffer (i % s.tot_num_walkers).toNat := by
  have hne : s.tot_num_walkers ≠ 0 := by omega
  obtain ⟨hws, hrows⟩ := wf_rows s hk hcap
  refine ⟨(resize_isReturned tg n s hne).mpr, ?_, ?_⟩
  · rw [resize_state tg n s hne]
  · intro i hi0 hi1
    rw [resize_state tg n s hne]
    obtain ⟨hlen, hsame⟩ := reserve_rows n s (by omega) hws _ hrows
    have hfill : (resizeFill tg n (reserve n s)).walker_buffer =
        resizeCopy s.walker_size.toNat s.tot_num_walkers
          (n - s.tot_num_walkers).toNat s.tot_num_walkers 0 (reserve n s).walker_buffer := by
      unfold resizeFill
      rw [reserve_tot, reserve_walker_size, if_pos hn, if_pos hroot]
    show getRow _ (resizeFill tg n (reserve n s)).walker_buffer _ = _
    rw [hfill]
    have ek : ((s.tot_num_walkers.toNat : Nat) : Int) = s.tot_num_walkers :=
      Int.toNat_of_nonneg (by omega)
    have hkpos : 0 < s.tot_num_walkers.toNat := by omega
    have hm : s.tot_num_walkers.toNat + 0 + (n - s.tot_num_walkers).toNat = n.toNat := by omega
    obtain ⟨_, _, h3⟩ := resizeCopy_spec s.walker_size.toNat s.tot_num_walkers.toNat hkpos
      s.tot_num_walkers ek.symm (n - s.tot_num_walkers).toNat 0 s.tot_num_walkers 0
      (reserve n s).walker_buffer (by simp [ek]) (by simp) (by rw [hm]; exact hlen)
    have hi : (s.tot_num_walkers + i).toNat = s.tot_num_walkers.toNat + 0 + i.toNat := by omega
    rw [hi, h3 i.toNat (by omega), Nat.zero_add]
    have hmod : (i % s.tot_num_walkers).toNat = i.toNat % s.tot_num_walkers.toNat := by
      have ei : ((i.toNat : Nat) : Int) = i := Int.toNat_of_nonneg hi0
      have : i % s.tot_num_walkers = ((i.toNat % s.tot_num_walkers.toNat : Nat) : Int) := by
        push_cast; rw [ei, ek]
      rw [this]; exact Int.toNat_natCast _
    rw [hmod]
    exact hsame _ (Nat.mod_lt _ hkpos)

/-- Witness of C1: two walkers resized to five by the coordinator of a single node
group; the fifth record is a copy of the first. -/
theorem resize_grow_round_robin_witness :
    singleGroup.root = true ∧ (1 : Int) ≤ twoWalkers.tot_num_walkers ∧
    twoWalkers.tot_num_walkers ≤ capacity twoWalkers ∧ twoWalkers.tot_num_walkers < 5 ∧
    (resize singleGroup 5 twoWalkers).isReturned = true ∧
    (resize singleGroup 5 twoWalkers).state.tot_num_walkers = 5 ∧
    getRow 2 (resize singleGroup 5 twoWalkers).state.walker_buffer 4
      = getRow 2 twoWalkers.walker_buffer 0 :=
  have h := resize_grow_round_robin singleGroup twoWalkers 5 rfl (by decide) (by decide)
    (by decide)
  ⟨rfl, by decide, by decide, by decide, h.1 (by decide), h.2.1,
    h.2.2 2 (by decide) (by decide)⟩

/-- C2: `resize(n)` on a non-empty set returns normally if and only if the global
population sum, computed once the local count is `n`, equals `n` times the number
of node groups; on normal return `targetN_per_TG == n` and `targetN == n * groups`;
four groups each resized to 8 give `targetN = 32`, and a global sum of 30 with
`n = 8` and four groups aborts. -/
theorem resize_global_consistency (tg : TaskGroup) (s : SharedWalkerSet) (n : Int)
    (hk : 1 ≤ s.tot_num_walkers) :
    (resize tg n s).state.tot_num_walkers = n ∧
    ((resize tg n s).isReturned = true ↔
      GlobalPopulation tg (resize tg n s).state = n * tg.getNumberOfTGs) ∧
    ((resize tg n s).isReturned = true →
      (resize tg n s).state.targetN_per_TG = n ∧
      (resize tg n s).state.targetN = n * tg.getNumberOfTGs) ∧
    (tg.otherTGs = [8, 8, 8] →
      (resize tg 8 s).isReturned = true ∧ (resize tg 8 s).state.targetN = 32) ∧
    (tg.otherTGs.length = 3 → GlobalPopulation tg (resize tg 8 s).state = 30 →
      (resize tg 8 s).isReturned = false) := by
  have hne : s.tot_num_walkers ≠ 0 := by omega
  have hst := fun m => resize_state tg m s hne
  have hret := fun m => resize_isReturned tg m s hne
  have hglob : ∀ m, GlobalPopulation tg (resize tg m s).state = m + tg.otherTGs.sum := by
    intro m
    rw [hst m]
    rfl
  refine ⟨by rw [hst n], ?_, ?_, ?_, ?_⟩
  · rw [hglob n]
    exact hret n
  · intro h
    have h1 := (hret n).mp h
    rw [hst n]
    exact ⟨rfl, h1⟩
  · intro h8
    have hc : (8 : Int) + tg.otherTGs.sum = 8 * tg.getNumberOfTGs := by
      simp [h8, TaskGroup.getNumberOfTGs]
    refine ⟨(hret 8).mpr hc, ?_⟩
    rw [hst 8]
    simp [h8]
  · intro h3 h30
    rw [hglob 8] at h30
    have hc : ¬ ((8 : Int) + tg.otherTGs.sum = 8 * tg.getNumberOfTGs) := by
      simp only [TaskGroup.getNumberOfTGs, h3]
      omega
    cases hr : (resize tg 8 s).isReturned with
    | false => rfl
    | true => exact absurd ((hret 8).mp hr) hc

/-- Witness of C2: two walkers resized to 8 in one of four node groups whose other
three members hold 8 walkers each. -/
theorem resize_global_consistency_witness :
    (1 : Int) ≤ twoWalkers.tot_num_walkers ∧
    (resize (fourGroups 8) 8 twoWalkers).isReturned = true ∧
    (resize (fourGroups 8) 8 twoWalkers).state.targetN = 32 :=
  ⟨by decide, (resize_global_consistency (fourGroups 8) twoWalkers 8 (by decide)).2.2.2.1 rfl⟩

/-- C3: for every `n`, `resize(n)` on a walker set whose `tot_num_walkers` is 0
aborts, and the state at the abort is the state on entry: no capacity has been
reserved and no count or target has changed. -/
theorem resize_empty_aborts (tg : TaskGroup) (s : SharedWalkerSet) (n : Int)
    (h0 : s.tot_num_walkers = 0) :
    resize tg n s = .aborted "error: empty set in resize(n)." s := by
  unfold resize
  rw [if_pos h0]

/-- Witness of C3: the two-walker set with its count set to zero, resized to 5. -/
theorem resize_empty_aborts_witness :
    ({ twoWalkers with tot_num_walkers := 0 } : SharedWalkerSet).tot_num_walkers = 0 ∧
    resize singleGroup 5 { twoWalkers with tot_num_walkers := 0 }
      = .aborted "error: empty set in resize(n)." { twoWalkers with tot_num_walkers := 0 } :=
  ⟨rfl, resize_empty_aborts singleGroup { twoWalkers with tot_num_walkers := 0 } 5 rfl⟩

/-- Counterexample to C4: in a run of four node groups that all call `resize(0)`,
the call on a set of two walkers returns normally, with all counts zero. -/
theorem resize_zero_returns_normally :
    (1 : Int) ≤ twoWalkers.tot_num_walkers ∧
    resize (fourGroups 0) 0 twoWalkers =
      .returned { twoWalkers with tot_num_walkers := 0, targetN_per_TG := 0, targetN := 0 } :=
  ⟨by decide, rfl⟩

/-- C4, amended: `resize(0)` on a non-empty walker set aborts if and only if the
populations of the other node groups do not sum to zero; when every node group
calls `resize(0)` it returns normally with
`tot_num_walkers == targetN_per_TG == targetN == 0`. -/
theorem resize_zero_fatal_iff (tg : TaskGroup) (s : SharedWalkerSet)
    (hk : 1 ≤ s.tot_num_walkers) :
    ((resize tg 0 s).isReturned = false ↔ tg.otherTGs.sum ≠ 0) ∧
    ((∀ m ∈ tg.otherTGs, m = 0) →
      (resize tg 0 s).isReturned = true ∧
      (resize tg 0 s).state.tot_num_walkers = 0 ∧
      (resize tg 0 s).state.targetN_per_TG = 0 ∧
      (resize tg 0 s).state.targetN = 0) := by
  have hne : s.tot_num_walkers ≠ 0 := by omega
  have hret := resize_isReturned tg 0 s hne
  simp only [zero_add, zero_mul] at hret
  constructor
  · cases hr : (resize tg 0 s).isReturned with
    | false =>
      simp only [true_iff]
      intro h
      rw [hret.mpr h] at hr
      exact Bool.noConfusion hr
    | true =>
      simp only [Bool.true_eq_false, false_iff, not_not]
      exact hret.mp hr
  · intro hall
    have hsum : tg.otherTGs.sum = 0 := List.sum_eq_zero hall
    refine ⟨hret.mpr hsum, ?_, ?_, ?_⟩ <;> rw [resize_state tg 0 s hne]
    simp [hsum]

/-- Witness of C4, amended: two walkers, four node groups all calling `resize(0)`. -/
theorem resize_zero_fatal_iff_witness :
    (1 : Int) ≤ twoWalkers.tot_num_walkers ∧
    (resize (fourGroups 0) 0 twoWalkers).isReturned = true ∧
    (resize (fourGroups 0) 0 twoWalkers).state.tot_num_walkers = 0 :=
  have h := (resize_zero_fatal_iff (fourGroups 0) twoWalkers (by decide)).2 (by decide)
  ⟨by decide, h.1, h.2.1⟩

/-- C5: for a non-empty walker set of size `k` (holding its `k` records, so
`k ≤ capacity`) and every `n` with `1 ≤ n < k`, `resize(n)` reserves nothing, writes
no scalar of the buffer, leaves capacity and the records at indices `0..n-1`
unchanged, and sets `tot_num_walkers` to `n`. -/
theorem resize_shrink (tg : TaskGroup) (s : SharedWalkerSet) (n : Int)
    (h1 : 1 ≤ n) (hn : n < s.tot_num_walkers) (hcap : s.tot_num_walkers ≤ capacity s) :
    reserve n s = s ∧
    (resize tg n s).state.walker_buffer = s.walker_buffer ∧
    capacity (resize tg n s).state = capacity s ∧
    (resize tg n s).state.tot_num_walkers = n ∧
    ∀ i : Nat, (i : Int) < n →
      getRow s.walker_size.toNat (resize tg n s).state.walker_buffer i
        = getRow s.walker_size.toNat s.walker_buffer i := by
  have hne : s.tot_num_walkers ≠ 0 := by omega
  have hres : reserve n s = s := by
    unfold reserve
    rw [if_neg (by omega)]
  have hfill : resizeFill tg n s = s := by
    unfold resizeFill
    rw [if_neg (by omega)]
  have hst := resize_state tg n s hne
  rw [hres, hfill] at hst
  refine ⟨hres, by rw [hst], by rw [hst]; rfl, by rw [hst], ?_⟩
  intro i _
  rw [hst]

/-- Witness of C5: two walkers resized to one. -/
theorem resize_shrink_witness :
    (1 : Int) ≤ 1 ∧ (1 : Int) < twoWalkers.tot_num_walkers ∧
    twoWalkers.tot_num_walkers ≤ capacity twoWalkers ∧
    (resize singleGroup 1 twoWalkers).state.walker_buffer = twoWalkers.walker_buffer ∧
    (resize singleGroup 1 twoWalkers).state.tot_num_walkers = 1 :=
  have h := resize_shrink singleGroup twoWalkers 1 (by decide) (by decide) (by decide)
  ⟨by decide, by decide, by decide, h.2.1, h.2.2.2.1⟩


/-! ## Properties of `popControl` -/

theorem popControlStats_frame (coll : Collaborators) (tg : TaskGroup) (s : SharedWalkerSet)
    (cd : List ComplexType) :
    (popControlStats coll tg s cd).1.pop_control = s.pop_control ∧
    (popControlStats coll tg s cd).1.tot_num_walkers = s.tot_num_walkers ∧
    (popControlStats coll tg s cd).1.targetN_per_TG = s.targetN_per_TG ∧
    (popControlStats coll tg s cd).1.targetN = s.targetN := by
  unfold popControlStats scaleWeight
  cases tg.root <;> simp

theorem popControlBalance_returned (coll : Collaborators) (s : SharedWalkerSet)
    (W : List (List ComplexType)) (cd : List ComplexType)
    (r : SharedWalkerSet × List ComplexType)
    (h : popControlBalance coll s W cd = .returned r) :
    r.1 = coll.loadBalance s W ∧ r.1.tot_num_walkers = r.1.targetN_per_TG := by
  unfold popControlBalance at h
  simp only at h
  split at h
  · exact Outcome.noConfusion h
  · rename_i hne
    injection h with h
    subst h
    exact ⟨rfl, not_not.mp hne⟩

theorem index_inj (ws : Nat) {i j q off : Nat} (hq : q < ws) (hoff : off < ws)
    (h : j * ws + q = i * ws + off) : j = i ∧ q = off := by
  rcases Nat.lt_trichotomy j i with hlt | heq | hgt
  · have := rows_le ws (Nat.succ_le_of_lt hlt)
    omega
  · subst heq
    exact ⟨rfl, by omega⟩
  · have := rows_le ws (Nat.succ_le_of_lt hgt)
    omega

theorem scaleWeightLoop_spec (ws off : Nat) (w0 : ℚ) (hoff : off < ws) :
    ∀ (i : Nat) (W : List ComplexType), i * ws ≤ W.length →
      (scaleWeightLoop ws off w0 i W).length = W.length ∧
      ∀ j q, q < ws →
        (scaleWeightLoop ws off w0 i W).getD (j * ws + q) ComplexType.zero =
          if j < i ∧ q = off then (W.getD (j * ws + q) ComplexType.zero).scale w0
          else W.getD (j * ws + q) ComplexType.zero := by
  intro i
  induction i with
  | zero =>
    intro W _
    simp [scaleWeightLoop]
  | succ i ih =>
    intro W hlen
    have hrow : i * ws + ws ≤ W.length := by
      rw [Nat.succ_mul] at hlen
      exact hlen
    obtain ⟨ih1, ih2⟩ := ih W (by omega)
    simp only [scaleWeightLoop]
    refine ⟨by rw [List.length_set, ih1], ?_⟩
    intro j q hq
    by_cases hidx : j * ws + q = i * ws + off
    · obtain ⟨hj, hqo⟩ := index_inj ws hq hoff hidx
      subst hj
      subst hqo
      rw [if_pos ⟨Nat.lt_succ_self _, rfl⟩]
      rw [List.getD_eq_getElem?_getD, List.getElem?_set_self (by rw [ih1]; omega)]
      simp only [Option.getD_some]
      rw [ih2 j q hq, if_neg (by omega)]
    · rw [List.getD_eq_getElem?_getD, List.getElem?_set_ne (Ne.symm hidx),
        ← List.getD_eq_getElem?_getD, ih2 j q hq]
      by_cases hc : j < i ∧ q = off
      · rw [if_pos hc, if_pos ⟨by omega, hc.2⟩]
      · rw [if_neg hc, if_neg]
        rintro ⟨hj, hqo⟩
        apply hc
        refine ⟨?_, hqo⟩
        rcases Nat.lt_or_ge j i with h | h
        · exact h
        · exfalso
          apply hidx
          have : j = i := by omega
          rw [this, hqo]

theorem weights_scaleWeight (w0 : ℚ) (s : SharedWalkerSet)
    (h0 : 0 ≤ s.data_displ.WEIGHT) (h1 : s.data_displ.WEIGHT < s.walker_size)
    (hlen : s.tot_num_walkers.toNat * s.walker_size.toNat ≤ s.walker_buffer.length) :
    weights (scaleWeight w0 s) = (weights s).map fun w => w.scale w0 := by
  unfold weights scaleWeight
  simp only [List.map_map]
  apply List.map_congr_left
  intro i hi
  have hi' : i < s.tot_num_walkers.toNat := List.mem_range.mp hi
  have hoff : s.data_displ.WEIGHT.toNat < s.walker_size.toNat := by omega
  obtain ⟨_, h⟩ := scaleWeightLoop_spec s.walker_size.toNat s.data_displ.WEIGHT.toNat w0 hoff
    s.tot_num_walkers.toNat s.walker_buffer hlen
  simp only [Function.comp]
  rw [h i _ hoff, if_pos ⟨hi', rfl⟩]

theorem popControl_passive_threeWeights (x : ℚ) :
    weights (popControl (passive (statsWith x)) singleGroup threeWeights).state.1
      = [real (2 * (1 / x)), real (3 * (1 / x)), real (5 * (1 / x))] := by
  have h1 : weights (popControl (passive (statsWith x)) singleGroup threeWeights).state.1
      = weights (scaleWeight (1 / x) threeWeights) := rfl
  rw [h1, weights_scaleWeight _ _ (by decide) (by decide) (by decide)]
  have h2 : weights threeWeights = [real 2, real 3, real 5] := by decide
  rw [h2]
  simp [real, ComplexType.scale]

/-- C6: `popControl` entered with `tot_num_walkers != targetN_per_TG` aborts,
whatever the branching and load-balance policies and whatever the collaborating
routines do; the walker set at the abort is the one on entry, so no weight has been
rescaled and no branching performed, and the statistics vector is seven zeros. -/
theorem popControl_entry_check (coll : Collaborators) (tg : TaskGroup) (s : SharedWalkerSet)
    (h : s.tot_num_walkers ≠ s.targetN_per_TG) :
    popControl coll tg s =
      .aborted "Error: tot_num_walkers!=targetN_per_TG"
        (s, List.replicate 7 ComplexType.zero) := by
  unfold popControl
  simp only
  rw [if_pos h]

/-- Witness of C6: three walkers against a target of four. -/
theorem popControl_entry_check_witness :
    ({ threeWeights with targetN_per_TG := 4 } : SharedWalkerSet).tot_num_walkers
      ≠ ({ threeWeights with targetN_per_TG := 4 } : SharedWalkerSet).targetN_per_TG ∧
    popControl (passive (statsWith 10)) singleGroup { threeWeights with targetN_per_TG := 4 } =
      .aborted "Error: tot_num_walkers!=targetN_per_TG"
        ({ threeWeights with targetN_per_TG := 4 }, List.replicate 7 ComplexType.zero) :=
  ⟨by decide,
    popControl_entry_check (passive (statsWith 10)) singleGroup
      { threeWeights with targetN_per_TG := 4 } (by decide)⟩

/-- C7: whenever `popControl` returns normally, `tot_num_walkers == targetN_per_TG`
holds in the resulting state; and when the branching and load-balancing routines
do not assign the targets, `targetN_per_TG` and `targetN` are the same as on
entry. -/
theorem popControl_exit_invariant (coll : Collaborators) (tg : TaskGroup)
    (s s' : SharedWalkerSet) (cd : List ComplexType)
    (hret : popControl coll tg s = .returned (s', cd)) :
    s'.tot_num_walkers = s'.targetN_per_TG ∧
    ((∀ st W, (coll.SerialBranching st W).1.targetN_per_TG = st.targetN_per_TG ∧
        (coll.SerialBranching st W).1.targetN = st.targetN) →
      (∀ st W, (coll.loadBalance st W).targetN_per_TG = st.targetN_per_TG ∧
        (coll.loadBalance st W).targetN = st.targetN) →
      s'.targetN_per_TG = s.targetN_per_TG ∧ s'.targetN = s.targetN) := by
  obtain ⟨_, _, f3, f4⟩ := popControlStats_frame coll tg s (List.replicate 7 ComplexType.zero)
  unfold popControl at hret
  simp only at hret
  split at hret
  · exact Outcome.noConfusion hret
  · split at hret
    · obtain ⟨h1, h2⟩ := popControlBalance_returned _ _ _ _ _ hret
      simp only at h1 h2
      refine ⟨h2, fun hbr hlb => ?_⟩
      rw [h1, (hlb _ _).1, (hlb _ _).2]
      cases hroot : tg.root
      · simp only [Bool.false_eq_true, if_false]
        exact ⟨f3, f4⟩
      · simp only [if_true]
        rw [(hbr _ _).1, (hbr _ _).2]
        exact ⟨f3, f4⟩
    · split at hret
      · exact Outcome.noConfusion hret
      · obtain ⟨h1, h2⟩ := popControlBalance_returned _ _ _ _ _ hret
        simp only at h1 h2
        refine ⟨h2, fun _ hlb => ?_⟩
        rw [h1, (hlb _ _).1, (hlb _ _).2]
        exact ⟨f3, f4⟩

/-- Witness of C7: three walkers at their target, with collaborators that branch
and move no walker; `popControl` returns and the counts agree. -/
theorem popControl_exit_invariant_witness :
    popControl (passive (statsWith 10)) singleGroup threeWeights
      = .returned ((popControl (passive (statsWith 10)) singleGroup threeWeights).state) ∧
    (popControl (passive (statsWith 10)) singleGroup threeWeights).state.1.tot_num_walkers
      = (popControl (passive (statsWith 10)) singleGroup threeWeights).state.1.targetN_per_TG ∧
    (popControl (passive (statsWith 10)) singleGroup threeWeights).state.1.targetN_per_TG
      = threeWeights.targetN_per_TG :=
  have h := popControl_exit_invariant (passive (statsWith 10)) singleGroup threeWeights
    (popControl (passive (statsWith 10)) singleGroup threeWeights).state.1
    (popControl (passive (statsWith 10)) singleGroup threeWeights).state.2 rfl
  ⟨rfl, h.1, (h.2 (fun _ _ => ⟨rfl, rfl⟩) (fun _ _ => ⟨rfl, rfl⟩)).1⟩

/-- C8: for every walker set that satisfies the entry invariant and has
`pop_control == COMB`, `popControl` aborts and does not return; the state at the
abort is the one left by the statistics phase, and the outcome is the same
whatever the branching and load-balancing routines are, so none is invoked. -/
theorem popControl_comb_aborts (coll : Collaborators) (tg : TaskGroup) (s : SharedWalkerSet)
    (hinv : s.tot_num_walkers = s.targetN_per_TG) (hcomb : s.pop_control = .COMB) :
    popControl coll tg s =
      .aborted " Error: Distributed comb not implemented yet. "
        (popControlStats coll tg s (List.replicate 7 ComplexType.zero)) ∧
    (popControl coll tg s).isReturned = false ∧
    ∀ coll' : Collaborators, coll'.BasicWalkerData = coll.BasicWalkerData →
      popControl coll' tg s = popControl coll tg s := by
  have key : ∀ c : Collaborators, popControl c tg s =
      .aborted " Error: Distributed comb not implemented yet. "
        (popControlStats c tg s (List.replicate 7 ComplexType.zero)) := by
    intro c
    obtain ⟨f1, _, _, _⟩ := popControlStats_frame c tg s (List.replicate 7 ComplexType.zero)
    unfold popControl
    simp only
    rw [if_neg (not_not.mpr hinv), f1, hcomb]
    simp
  refine ⟨key coll, by rw [key coll]; rfl, ?_⟩
  intro coll' hsame
  rw [key coll', key coll]
  unfold popControlStats
  rw [hsame]

/-- Witness of C8: three walkers at their target under the `COMB` policy. -/
theorem popControl_comb_aborts_witness :
    ({ threeWeights with pop_control := .COMB } : SharedWalkerSet).tot_num_walkers
      = ({ threeWeights with pop_control := .COMB } : SharedWalkerSet).targetN_per_TG ∧
    (popControl (passive (statsWith 10)) singleGroup
      { threeWeights with pop_control := .COMB }).isReturned = false :=
  ⟨rfl, (popControl_comb_aborts (passive (statsWith 10)) singleGroup
    { threeWeights with pop_control := .COMB } rfl rfl).2.1⟩

/-- Counterexample to C9: with `outStats[0] = 1/10` the coordinator turns the
weights 2, 3, 5 into 20, 30, 50, not into 0.2, 0.3, 0.5. -/
theorem popControl_rescale_not_by_stat :
    weights threeWeights = [real 2, real 3, real 5] ∧
    (popControl (passive (statsWith (1 / 10))) singleGroup threeWeights).isReturned = true ∧
    weights (popControl (passive (statsWith (1 / 10))) singleGroup threeWeights).state.1
      = [real 20, real 30, real 50] ∧
    weights (popControl (passive (statsWith (1 / 10))) singleGroup threeWeights).state.1
      ≠ [real (1 / 5), real (3 / 10), real (1 / 2)] := by
  refine ⟨by decide, rfl, ?_, ?_⟩
  · rw [popControl_passive_threeWeights]
    norm_num
  · rw [popControl_passive_threeWeights]
    norm_num [real]

/-- C9, amended: in `popControl` the coordinator multiplies every local walker
weight by the reciprocal of the real part of `outStats[0]`, and for a policy other
than `COMB` hands the rescaled population to the branching routine. -/
theorem popControl_rescale_reciprocal (coll : Collaborators) (tg : TaskGroup)
    (s : SharedWalkerSet) (cd : List ComplexType) (hroot : tg.root = true)
    (h0 : 0 ≤ s.data_displ.WEIGHT) (h1 : s.data_displ.WEIGHT < s.walker_size)
    (hlen : s.tot_num_walkers.toNat * s.walker_size.toNat ≤ s.walker_buffer.length) :
    weights (popControlStats coll tg s cd).1 =
      (weights s).map
        (fun w => w.scale (1 / ((coll.BasicWalkerData s).getD 0 ComplexType.zero).re)) ∧
    (s.tot_num_walkers = s.targetN_per_TG → s.pop_control ≠ .COMB →
      popControl coll tg s =
        popControlBalance coll
          (coll.SerialBranching
            (popControlStats coll tg s (List.replicate 7 ComplexType.zero)).1 []).1
          (coll.SerialBranching
            (popControlStats coll tg s (List.replicate 7 ComplexType.zero)).1 []).2
          (popControlStats coll tg s (List.replicate 7 ComplexType.zero)).2) := by
  constructor
  · have e : weights (popControlStats coll tg s cd).1 =
        weights (scaleWeight (1 / ((coll.BasicWalkerData s).getD 0 ComplexType.zero).re) s) := by
      unfold popControlStats
      simp only [hroot, if_true]
      rfl
    rw [e, weights_scaleWeight _ _ h0 h1 hlen]
  · intro hinv hpol
    obtain ⟨f1, _, _, _⟩ := popControlStats_frame coll tg s (List.replicate 7 ComplexType.zero)
    unfold popControl
    simp only
    rw [if_neg (not_not.mpr hinv), f1]
    have hb : s.pop_control = .PAIR ∨ s.pop_control = .SERIAL_COMB
        ∨ s.pop_control = .MIN_BRANCH := by
      cases hp : s.pop_control
      · exact Or.inl rfl
      · exact Or.inr (Or.inl rfl)
      · exact Or.inr (Or.inr rfl)
      · exact absurd hp hpol
    rw [if_pos hb]
    simp only [hroot, if_true]

/-- Witness of C9, amended: with `outStats[0] = 10` the weights 2, 3, 5 become 0.2,
0.3, 0.5. -/
theorem popControl_rescale_reciprocal_witness :
    singleGroup.root = true ∧ (0 : Int) ≤ threeWeights.data_displ.WEIGHT ∧
    threeWeights.data_displ.WEIGHT < threeWeights.walker_size ∧
    threeWeights.tot_num_walkers.toNat * threeWeights.walker_size.toNat
      ≤ threeWeights.walker_buffer.length ∧
    weights (popControlStats (passive (statsWith 10)) singleGroup threeWeights []).1
      = [real (1 / 5), real (3 / 10), real (1 / 2)] :=
  ⟨rfl, by decide, by decide, by decide,
    (popControl_rescale_reciprocal (passive (statsWith 10)) singleGroup threeWeights [] rfl
      (by decide) (by decide) (by decide)).1.trans (by
        have h2 : weights threeWeights = [real 2, real 3, real 5] := by decide
        rw [h2]
        norm_num [passive, statsWith, real, ComplexType.scale])⟩

/-! ## Properties of `setup` -/

/-- C10: for every `(nmo, naea, naeb)`, `setup` derives `(nrow, ncol, ndim_bp)` as
`(nmo, naea, nmo)` for `CLOSED`, `(nmo, naea+naeb, nmo)` for `COLLINEAR` and
`(2*nmo, naea+naeb, 2*nmo)` for `NONCOLLINEAR`; it then returns with the `SM` slot
at offset 0 and of size `nrow*ncol`, and, when `nback_prop > 0`, with a propagator
slot of size `nback_prop*ndim_bp^2`, which is the value of `bp_size`. -/
theorem setup_dimensions (s : SharedWalkerSet) :
    (s.walkerType = .CLOSED →
      (setupShape s).map Prod.snd = some (s.NMO, s.NAEA, s.NMO)) ∧
    (s.walkerType = .COLLINEAR →
      (setupShape s).map Prod.snd = some (s.NMO, s.NAEA + s.NAEB, s.NMO)) ∧
    (s.walkerType = .NONCOLLINEAR →
      (setupShape s).map Prod.snd = some (2 * s.NMO, s.NAEA + s.NAEB, 2 * s.NMO)) ∧
    ∀ desc nrow ncol ndim_bp, setupShape s = some (desc, nrow, ncol, ndim_bp) →
      bp_size s.nback_prop ndim_bp = s.nback_prop * ndim_bp ^ 2 ∧
      (setup s).isReturned = true ∧
      (setup s).state.data_displ.SM = 0 ∧
      (setup s).state.data_displ.WEIGHT - (setup s).state.data_displ.SM = nrow * ncol ∧
      (0 < s.nback_prop →
        (setup s).state.data_displ.HEAD - (setup s).state.data_displ.PROPAGATORS
          = s.nback_prop * ndim_bp ^ 2) := by
  refine ⟨?_, ?_, ?_, ?_⟩
  · intro h
    simp [setupShape, h]
  · intro h
    simp [setupShape, h]
  · intro h
    simp [setupShape, h]
    constructor <;> ring
  · intro desc nrow ncol ndim_bp h
    have hb : bp_size s.nback_prop ndim_bp = s.nback_prop * ndim_bp ^ 2 := by
      unfold bp_size
      ring
    refine ⟨hb, ?_, ?_, ?_, ?_⟩
    · simp [setup, h, Outcome.isReturned]
    · simp only [setup, h, Outcome.state, setupDispl]
      split <;> rfl
    · simp only [setup, h, Outcome.state, setupDispl]
      split <;> simp
    · intro hpos
      simp only [setup, h, Outcome.state, setupDispl]
      rw [if_pos hpos]
      simp only [hb]
      ring

/-- Witness of C10: a closed-shell set with `nmo = 4`, `naea = 2` and one step of
back propagation has an `SM` slot of size 8 and a propagator slot of size 16. -/
theorem setup_dimensions_witness :
    (setupShape (unconfigured .CLOSED 4 2 2 1)).map Prod.snd = some (4, 2, 4) ∧
    (setup (unconfigured .CLOSED 4 2 2 1)).isReturned = true ∧
    (setup (unconfigured .CLOSED 4 2 2 1)).state.data_displ.WEIGHT
      - (setup (unconfigured .CLOSED 4 2 2 1)).state.data_displ.SM = 4 * 2 ∧
    (setup (unconfigured .CLOSED 4 2 2 1)).state.data_displ.HEAD
      - (setup (unconfigured .CLOSED 4 2 2 1)).state.data_displ.PROPAGATORS = 1 * 4 ^ 2 :=
  have h := setup_dimensions (unconfigured .CLOSED 4 2 2 1)
  have h4 := h.2.2.2 [4, 2, 0, 1] 4 2 4 rfl
  ⟨h.1 rfl, h4.2.1, h4.2.2.2.1, h4.2.2.2.2 (by decide)⟩

theorem setup_of_shape (s : SharedWalkerSet) (desc : List Int) (nrow ncol ndim_bp : Int)
    (hshape : setupShape s = some (desc, nrow, ncol, ndim_bp)) :
    setup s = .returned
      { s with
        wlk_desc := desc
        data_displ := (setupDispl s.nback_prop nrow ncol ndim_bp).1
        walker_size := (setupDispl s.nback_prop nrow ncol ndim_bp).2
        walker_memory_usage := (setupDispl s.nback_prop nrow ncol ndim_bp).2 * sizeof_ComplexType
        tot_num_walkers := 0
        min_weight := max |s.min_weight| (1 / 100) } := by
  simp only [setup, hshape]

theorem setupDispl_no_bp (nback_prop nrow ncol ndim_bp : Int) (h : nback_prop ≤ 0) :
    setupDispl nback_prop nrow ncol ndim_bp =
      (⟨0, nrow * ncol, nrow * ncol + 1, nrow * ncol + 2, nrow * ncol + 3, nrow * ncol + 4,
        nrow * ncol + 5, nrow * ncol + 6, -1, -1, -1, -1, -1, -1⟩, nrow * ncol + 7) := by
  unfold setupDispl
  simp only
  rw [if_neg (by omega)]
  simp only [zero_add, Prod.mk.injEq, DataDispl.mk.injEq, true_and, and_true]
  refine ⟨⟨?_, ?_, ?_, ?_, ?_⟩, ?_⟩ <;> ring

theorem setupDispl_bp (nback_prop nrow ncol ndim_bp : Int) (h : 0 < nback_prop) :
    setupDispl nback_prop nrow ncol ndim_bp =
      (⟨0, nrow * ncol, nrow * ncol + 1, nrow * ncol + 2, nrow * ncol + 3, nrow * ncol + 4,
        nrow * ncol + 5, nrow * ncol + 6, nrow * ncol + 7,
        nrow * ncol + 7 + nback_prop * ndim_bp ^ 2,
        nrow * ncol + 7 + nback_prop * ndim_bp ^ 2 + 1,
        nrow * ncol + 7 + nback_prop * ndim_bp ^ 2 + 2,
        nrow * ncol + 7 + nback_prop * ndim_bp ^ 2 + 2 + nrow * ncol,
        nrow * ncol + 7 + nback_prop * ndim_bp ^ 2 + 2 + nrow * ncol + nback_prop⟩,
        nrow * ncol + 7 + nback_prop * ndim_bp ^ 2 + 2 + nrow * ncol + nback_prop
          + nback_prop) := by
  unfold setupDispl bp_size
  simp only
  rw [if_pos h]
  simp only [zero_add, Prod.mk.injEq, DataDispl.mk.injEq, true_and]
  refine ⟨⟨?_, ?_, ?_, ?_, ?_, ?_, ?_, ?_, ?_, ?_, ?_⟩, ?_⟩ <;> ring

/-- C11: for every valid shape variant with `nback_prop <= 0`, `setup` returns with
offsets `SM = 0`, `WEIGHT = nrow*ncol`, `PHASE = nrow*ncol+1`, ...,
`OVLP = nrow*ncol+6`, with `walker_size = nrow*ncol+7`, and with the six
back-propagation offsets equal to the sentinel `-1`; for `CLOSED` with `nmo = 4`,
`naea = 2` the `SM` slot is at offset 0 with size 8 and `WEIGHT` is at offset 8. -/
theorem setup_layout_no_back_propagation (s : SharedWalkerSet) (desc : List Int)
    (nrow ncol ndim_bp : Int)
    (hshape : setupShape s = some (desc, nrow, ncol, ndim_bp)) (hbp : s.nback_prop ≤ 0) :
    (setup s).isReturned = true ∧
    (setup s).state.data_displ =
      ⟨0, nrow * ncol, nrow * ncol + 1, nrow * ncol + 2, nrow * ncol + 3, nrow * ncol + 4,
        nrow * ncol + 5, nrow * ncol + 6, -1, -1, -1, -1, -1, -1⟩ ∧
    (setup s).state.walker_size = nrow * ncol + 7 ∧
    (s.walkerType = .CLOSED → s.NMO = 4 → s.NAEA = 2 →
      (setup s).state.data_displ.SM = 0 ∧
      (setup s).state.data_displ.WEIGHT - (setup s).state.data_displ.SM = 8 ∧
      (setup s).state.data_displ.WEIGHT = 8) := by
  rw [setup_of_shape s desc nrow ncol ndim_bp hshape,
    setupDispl_no_bp s.nback_prop nrow ncol ndim_bp hbp]
  refine ⟨rfl, rfl, rfl, ?_⟩
  intro ht hnmo hnaea
  simp only [setupShape, ht, if_true, Option.some.injEq, Prod.mk.injEq] at hshape
  obtain ⟨_, h1, h2, _⟩ := hshape
  simp only [Outcome.state]
  rw [← h1, ← h2, hnmo, hnaea]
  decide

/-- Witness of C11: the closed-shell set with `nmo = 4`, `naea = 2` and no back
propagation. -/
theorem setup_layout_no_back_propagation_witness :
    setupShape (unconfigured .CLOSED 4 2 2 0) = some ([4, 2, 0, 0], 4, 2, 4) ∧
    (unconfigured .CLOSED 4 2 2 0).nback_prop ≤ 0 ∧
    (setup (unconfigured .CLOSED 4 2 2 0)).isReturned = true ∧
    (setup (unconfigured .CLOSED 4 2 2 0)).state.data_displ =
      ⟨0, 8, 9, 10, 11, 12, 13, 14, -1, -1, -1, -1, -1, -1⟩ ∧
    (setup (unconfigured .CLOSED 4 2 2 0)).state.walker_size = 15 :=
  have h := setup_layout_no_back_propagation (unconfigured .CLOSED 4 2 2 0) [4, 2, 0, 0] 4 2 4
    rfl (by decide)
  ⟨rfl, by decide, h.1, h.2.1, h.2.2.1⟩

/-- C12: for every valid shape variant with `nback_prop > 0`, `setup` returns with the
fourteen slots laid out contiguously in the order of the enumeration with the sizes
the specification lists: each offset is the sum of the sizes of the earlier slots
and `walker_size` is the sum of all fourteen sizes; when the `SM` slot has a
non-negative size, no offset is the sentinel `-1` and every slot ends before any
later slot begins. -/
theorem setup_layout_back_propagation (s : SharedWalkerSet) (desc : List Int)
    (nrow ncol ndim_bp : Int)
    (hshape : setupShape s = some (desc, nrow, ncol, ndim_bp)) (hbp : 0 < s.nback_prop) :
    (setup s).isReturned = true ∧
    (∀ i, i < 14 →
      (setup s).state.data_displ.toList[i]?
        = some ((slotSizes s.nback_prop nrow ncol ndim_bp).take i).sum) ∧
    (setup s).state.walker_size = (slotSizes s.nback_prop nrow ncol ndim_bp).sum ∧
    (0 ≤ nrow * ncol →
      (∀ x ∈ (setup s).state.data_displ.toList, x ≠ -1) ∧
      (slots (setup s).state.data_displ s.nback_prop nrow ncol ndim_bp).Pairwise
        (fun a b => a.1 + a.2 ≤ b.1)) := by
  rw [setup_of_shape s desc nrow ncol ndim_bp hshape,
    setupDispl_bp s.nback_prop nrow ncol ndim_bp hbp]
  simp only [Outcome.state, Outcome.isReturned, slots, DataDispl.toList, slotSizes]
  refine ⟨trivial, ?_, ?_, ?_⟩
  · intro i hi
    interval_cases i <;> simp <;> ring
  · simp only [List.sum_cons, List.sum_nil]
    ring
  · intro hsm
    have hp : 0 ≤ s.nback_prop * ndim_bp ^ 2 :=
      mul_nonneg (le_of_lt hbp) (sq_nonneg ndim_bp)
    generalize nrow * ncol = a at hsm ⊢
    generalize s.nback_prop * ndim_bp ^ 2 = b at hp ⊢
    constructor
    · intro x hx
      simp only [List.mem_cons, List.mem_singleton, List.not_mem_nil, or_false] at hx
      omega
    · simp only [List.zip_cons_cons, List.zip_nil_right, List.pairwise_cons, List.mem_cons,
        List.mem_singleton, List.not_mem_nil, forall_eq_or_imp, forall_eq, List.Pairwise.nil,
        IsEmpty.forall_iff, implies_true, and_true]
      omega

/-- Witness of C12: the closed-shell set with `nmo = 4`, `naea = 2` and one step of
back propagation; the record has 43 scalars and the propagators start at offset 15. -/
theorem setup_layout_back_propagation_witness :
    setupShape (unconfigured .CLOSED 4 2 2 1) = some ([4, 2, 0, 1], 4, 2, 4) ∧
    0 < (unconfigured .CLOSED 4 2 2 1).nback_prop ∧
    (setup (unconfigured .CLOSED 4 2 2 1)).isReturned = true ∧
    (setup (unconfigured .CLOSED 4 2 2 1)).state.data_displ.toList[8]? = some 15 ∧
    (setup (unconfigured .CLOSED 4 2 2 1)).state.walker_size = 43 :=
  have h := setup_layout_back_propagation (unconfigured .CLOSED 4 2 2 1) [4, 2, 0, 1] 4 2 4
    rfl (by decide)
  ⟨rfl, by decide, h.1, h.2.1 8 (by decide), h.2.2.1.trans (by decide)⟩

/-- C13: `setup` called with a `walkerType` that is none of `CLOSED`, `COLLINEAR`,
`NONCOLLINEAR` aborts, leaving the walker set as it was; for each of those three
values it returns, and the state it returns holds the layout computed from the
dimensions of that variant. -/
theorem setup_walker_type (s : SharedWalkerSet) :
    ((s.walkerType ≠ .CLOSED ∧ s.walkerType ≠ .COLLINEAR ∧ s.walkerType ≠ .NONCOLLINEAR) →
      setup s = .aborted " Error: Incorrect walker_type on SharedWalkerSet::setup " s) ∧
    ((s.walkerType = .CLOSED ∨ s.walkerType = .COLLINEAR ∨ s.walkerType = .NONCOLLINEAR) →
      (setup s).isReturned = true ∧
      ∃ desc nrow ncol ndim_bp, setupShape s = some (desc, nrow, ncol, ndim_bp) ∧
        (setup s).state.data_displ = (setupDispl s.nback_prop nrow ncol ndim_bp).1 ∧
        (setup s).state.walker_size = (setupDispl s.nback_prop nrow ncol ndim_bp).2) := by
  constructor
  · rintro ⟨h1, h2, h3⟩
    have : setupShape s = none := by
      simp [setupShape, h1, h2, h3]
    simp only [setup, this]
  · intro h
    have : ∃ desc nrow ncol ndim_bp, setupShape s = some (desc, nrow, ncol, ndim_bp) := by
      rcases h with h | h | h
      · exact ⟨[s.NMO, s.NAEA, 0, s.nback_prop], s.NMO, s.NAEA, s.NMO, by
          simp [setupShape, h]⟩
      · exact ⟨[s.NMO, s.NAEA, s.NAEB, s.nback_prop], s.NMO, s.NAEA + s.NAEB, s.NMO, by
          simp [setupShape, h]⟩
      · exact ⟨[2 * s.NMO, s.NAEA + s.NAEB, 0, s.nback_prop], s.NMO + s.NMO,
          s.NAEA + s.NAEB, s.NMO * 2, by simp [setupShape, h]⟩
    obtain ⟨desc, nrow, ncol, ndim_bp, hs⟩ := this
    rw [setup_of_shape s desc nrow ncol ndim_bp hs]
    exact ⟨rfl, desc, nrow, ncol, ndim_bp, hs, rfl, rfl⟩

/-- Witness of C13: an undefined walker type aborts and a collinear one returns. -/
theorem setup_walker_type_witness :
    setup (unconfigured .UNDEFINED_WALKER_TYPE 4 2 2 0) =
      .aborted " Error: Incorrect walker_type on SharedWalkerSet::setup "
        (unconfigured .UNDEFINED_WALKER_TYPE 4 2 2 0) ∧
    (setup (unconfigured .COLLINEAR 4 2 2 0)).isReturned = true :=
  ⟨(setup_walker_type (unconfigured .UNDEFINED_WALKER_TYPE 4 2 2 0)).1
      ⟨by decide, by decide, by decide⟩,
    ((setup_walker_type (unconfigured .COLLINEAR 4 2 2 0)).2 (Or.inr (Or.inl rfl))).1⟩

/-! ## Capacity, `reserve` and `clean` -/

theorem capacity_nonneg (s : SharedWalkerSet) (hws : 0 ≤ s.walker_size) : 0 ≤ capacity s :=
  Int.ediv_nonneg (Int.natCast_nonneg _) hws

theorem reserve_of_capacity_ge (n : Int) (s : SharedWalkerSet) (h : ¬ capacity s < n) :
    reserve n s = s := by
  unfold reserve
  rw [if_neg h]

theorem reserve_grow (n : Int) (s : SharedWalkerSet) (hws : 0 < s.walker_size)
    (hlt : capacity s < n) :
    (reserve n s).walker_buffer =
      s.walker_buffer ++
        List.replicate ((s.walker_size * n).toNat - s.walker_buffer.length) ComplexType.zero ∧
    ((reserve n s).walker_buffer.length : Int) = s.walker_size * n := by
  have hcap := capacity_nonneg s (le_of_lt hws)
  have h1 : (s.walker_buffer.length : Int) < n * s.walker_size := by
    unfold capacity at hlt
    exact (Int.ediv_lt_iff_lt_mul hws).mp hlt
  have hpos : 0 ≤ s.walker_size * n := mul_nonneg (le_of_lt hws) (by omega)
  have hlen : s.walker_buffer.length ≤ (s.walker_size * n).toNat := by
    have : (s.walker_buffer.length : Int) ≤ s.walker_size * n := by
      rw [mul_comm]; exact le_of_lt h1
    omega
  have hb : (reserve n s).walker_buffer =
      s.walker_buffer ++
        List.replicate ((s.walker_size * n).toNat - s.walker_buffer.length)
          ComplexType.zero := by
    unfold reserve
    rw [if_pos hlt]
    simp only [SHM_Buffer_resize]
    rw [List.take_of_length_le hlen]
  refine ⟨hb, ?_⟩
  rw [hb, List.length_append, List.length_replicate]
  omega

theorem capacity_reserve (n : Int) (s : SharedWalkerSet) (hws : 0 < s.walker_size) :
    capacity (reserve n s) = max n (capacity s) := by
  by_cases hlt : capacity s < n
  · obtain ⟨_, hlen⟩ := reserve_grow n s hws hlt
    unfold capacity
    rw [hlen, reserve_walker_size, Int.mul_ediv_cancel_left _ (ne_of_gt hws)]
    unfold capacity at hlt
    exact (max_eq_left (le_of_lt hlt)).symm
  · have : reserve n s = s := by
      unfold reserve
      rw [if_neg hlt]
    rw [this]
    exact (max_eq_right (not_lt.mp hlt)).symm

theorem resizeFill_length (tg : TaskGroup) (n : Int) (s : SharedWalkerSet)
    (hk : 1 ≤ s.tot_num_walkers) (hcap : s.tot_num_walkers ≤ capacity s) :
    (resizeFill tg n (reserve n s)).walker_buffer.length
      = (reserve n s).walker_buffer.length := by
  obtain ⟨hws, hrows⟩ := wf_rows s hk hcap
  unfold resizeFill
  rw [reserve_tot, reserve_walker_size]
  by_cases hn : n > s.tot_num_walkers
  · rw [if_pos hn]
    cases hroot : tg.root
    · simp
    · simp only [if_true]
      obtain ⟨hlen, _⟩ := reserve_rows n s (by omega) hws _ hrows
      have ek : ((s.tot_num_walkers.toNat : Nat) : Int) = s.tot_num_walkers :=
        Int.toNat_of_nonneg (by omega)
      have hm : s.tot_num_walkers.toNat + 0 + (n - s.tot_num_walkers).toNat = n.toNat := by
        omega
      obtain ⟨h1, _, _⟩ := resizeCopy_spec s.walker_size.toNat s.tot_num_walkers.toNat
        (by omega) s.tot_num_walkers ek.symm (n - s.tot_num_walkers).toNat 0
        s.tot_num_walkers 0 (reserve n s).walker_buffer (by simp [ek]) (by simp)
        (by rw [hm]; exact hlen)
      exact h1
  · rw [if_neg hn]

/-- C14: `capacity >= tot_num_walkers` holds after `setup` and after `clean`, and, for a
walker set with a positive `walker_size` and a non-negative population, it is
preserved by `reserve(n)` for every `n` and by every `resize(n)` that returns
normally; `walker_size >= 7` holds after `setup` when the `SM` slot has a
non-negative size. -/
theorem capacity_invariant (s : SharedWalkerSet) :
    (∀ s', setup s = .returned s' → 0 < s'.walker_size →
      s'.tot_num_walkers ≤ capacity s') ∧
    (∀ desc nrow ncol ndim_bp, setupShape s = some (desc, nrow, ncol, ndim_bp) →
      0 ≤ nrow * ncol → 7 ≤ (setup s).state.walker_size) ∧
    (clean s).1.tot_num_walkers ≤ capacity (clean s).1 ∧
    (0 < s.walker_size → s.tot_num_walkers ≤ capacity s →
      ∀ n, (reserve n s).tot_num_walkers ≤ capacity (reserve n s)) ∧
    (0 < s.walker_size → 0 ≤ s.tot_num_walkers → s.tot_num_walkers ≤ capacity s →
      ∀ tg n s', resize tg n s = .returned s' → s'.tot_num_walkers ≤ capacity s') := by
  refine ⟨?_, ?_, ?_, ?_, ?_⟩
  · intro s' hret hws
    have htot : s'.tot_num_walkers = 0 := by
      unfold setup at hret
      split at hret
      · exact Outcome.noConfusion hret
      · injection hret with hret
        rw [← hret]
    rw [htot]
    exact capacity_nonneg s' (le_of_lt hws)
  · intro desc nrow ncol ndim_bp hshape hsm
    rw [setup_of_shape s desc nrow ncol ndim_bp hshape]
    simp only [Outcome.state]
    by_cases hbp : 0 < s.nback_prop
    · rw [setupDispl_bp _ _ _ _ hbp]
      have hp : 0 ≤ s.nback_prop * ndim_bp ^ 2 :=
        mul_nonneg (le_of_lt hbp) (sq_nonneg ndim_bp)
      simp only
      omega
    · rw [setupDispl_no_bp _ _ _ _ (not_lt.mp hbp)]
      simp only
      omega
  · simp [clean, capacity]
  · intro hws hinv n
    rw [reserve_tot, capacity_reserve n s hws]
    exact le_trans hinv (le_max_right _ _)
  · intro hws h0 hinv tg n s' hret
    have hne : s.tot_num_walkers ≠ 0 := by
      intro h
      unfold resize at hret
      rw [if_pos h] at hret
      exact Outcome.noConfusion hret
    have hst := resize_state tg n s hne
    rw [hret] at hst
    simp only [Outcome.state] at hst
    rw [hst]
    have hlen := resizeFill_length tg n s (by omega) hinv
    have hwsf : (resizeFill tg n (reserve n s)).walker_size = s.walker_size := by
      unfold resizeFill
      rw [← reserve_walker_size n s]
      split
      · split <;> rfl
      · rfl
    have hcap := capacity_reserve n s hws
    unfold capacity at hcap ⊢
    simp only
    rw [hlen, hwsf]
    rw [reserve_walker_size] at hcap
    rw [hcap]
    exact le_max_left _ _

/-- Witness of C14: two walkers in a buffer of two rows, resized to five by the
coordinator of a single node group. -/
theorem capacity_invariant_witness :
    0 < twoWalkers.walker_size ∧ 0 ≤ twoWalkers.tot_num_walkers ∧
    twoWalkers.tot_num_walkers ≤ capacity twoWalkers ∧
    resize singleGroup 5 twoWalkers = .returned (resize singleGroup 5 twoWalkers).state ∧
    (resize singleGroup 5 twoWalkers).state.tot_num_walkers
      ≤ capacity (resize singleGroup 5 twoWalkers).state :=
  ⟨by decide, by decide, by decide, rfl,
    (capacity_invariant twoWalkers).2.2.2.2 (by decide) (by decide) (by decide)
      singleGroup 5 _ rfl⟩

/-- C15: for a walker set with a positive `walker_size`, `reserve` never shrinks: for
every `n` the capacity after `reserve(n)` is the larger of `n` and the capacity
before, the old contents are a prefix of the new buffer, and for every `m <= n`,
`reserve(m)` after `reserve(n)` changes nothing. -/
theorem reserve_monotonic (s : SharedWalkerSet) (n : Int) (hws : 0 < s.walker_size) :
    capacity (reserve n s) = max n (capacity s) ∧
    max n (capacity s) ≤ capacity (reserve n s) ∧
    s.walker_buffer <+: (reserve n s).walker_buffer ∧
    ∀ m, m ≤ n →
      reserve m (reserve n s) = reserve n s ∧
      capacity (reserve m (reserve n s)) = capacity (reserve n s) ∧
      (reserve m (reserve n s)).walker_buffer = (reserve n s).walker_buffer := by
  have hc := capacity_reserve n s hws
  refine ⟨hc, le_of_eq hc.symm, ?_, ?_⟩
  · by_cases hlt : capacity s < n
    · rw [(reserve_grow n s hws hlt).1]
      exact List.prefix_append _ _
    · have : reserve n s = s := by
        unfold reserve
        rw [if_neg hlt]
      rw [this]
  · intro m hm
    have : reserve m (reserve n s) = reserve n s := by
      have hge : ¬ capacity (reserve n s) < m := by
        rw [hc]
        have := le_max_left n (capacity s)
        omega
      exact reserve_of_capacity_ge m (reserve n s) hge
    rw [this]
    exact ⟨rfl, rfl, rfl⟩

/-- Witness of C15: the two-walker set after `reserve(5)` has capacity 5, and
`reserve(3)` then changes nothing. -/
theorem reserve_monotonic_witness :
    0 < twoWalkers.walker_size ∧ capacity (reserve 5 twoWalkers) = 5 ∧
    reserve 3 (reserve 5 twoWalkers) = reserve 5 twoWalkers :=
  have h := reserve_monotonic twoWalkers 5 (by decide)
  ⟨by decide, h.1.trans (by decide), (h.2.2.2 3 (by decide)).1⟩

/-- C16: for every walker set, `clean()` returns true, replaces the buffer by an
empty one, of capacity 0, and leaves
`tot_num_walkers == targetN == targetN_per_TG == 0`, while `walker_size` and the
offset table are unchanged. -/
theorem clean_resets (s : SharedWalkerSet) :
    (clean s).2 = true ∧
    (clean s).1.walker_buffer = [] ∧
    capacity (clean s).1 = 0 ∧
    (clean s).1.tot_num_walkers = 0 ∧
    (clean s).1.targetN = 0 ∧
    (clean s).1.targetN_per_TG = 0 ∧
    (clean s).1.walker_size = s.walker_size ∧
    (clean s).1.data_displ = s.data_displ := by
  refine ⟨rfl, rfl, ?_, rfl, rfl, rfl, rfl, rfl⟩
  simp [clean, capacity]

/-! ## Further properties of `setup` -/

theorem setupShape_of_valid (s : SharedWalkerSet)
    (h : s.walkerType = .CLOSED ∨ s.walkerType = .COLLINEAR ∨ s.walkerType = .NONCOLLINEAR) :
    ∃ desc nrow ncol ndim_bp, setupShape s = some (desc, nrow, ncol, ndim_bp) := by
  rcases h with h | h | h
  · exact ⟨[s.NMO, s.NAEA, 0, s.nback_prop], s.NMO, s.NAEA, s.NMO, by
      simp [setupShape, h]⟩
  · exact ⟨[s.NMO, s.NAEA, s.NAEB, s.nback_prop], s.NMO, s.NAEA + s.NAEB, s.NMO, by
      simp [setupShape, h]⟩
  · exact ⟨[2 * s.NMO, s.NAEA + s.NAEB, 0, s.nback_prop], s.NMO + s.NMO,
      s.NAEA + s.NAEB, s.NMO * 2, by simp [setupShape, h]⟩

/-- Counterexample to C17: `setup` on a closed-shell walker set whose targets are 8
and 32 returns with `tot_num_walkers == 0` and with the targets still 8 and 32. -/
theorem setup_keeps_targets :
    (setup { unconfigured .CLOSED 4 2 2 0 with
      tot_num_walkers := 8, targetN_per_TG := 8, targetN := 32 }).isReturned = true ∧
    (setup { unconfigured .CLOSED 4 2 2 0 with
      tot_num_walkers := 8, targetN_per_TG := 8, targetN := 32 }).state.tot_num_walkers = 0 ∧
    (setup { unconfigured .CLOSED 4 2 2 0 with
      tot_num_walkers := 8, targetN_per_TG := 8, targetN := 32 }).state.targetN_per_TG = 8 ∧
    (setup { unconfigured .CLOSED 4 2 2 0 with
      tot_num_walkers := 8, targetN_per_TG := 8, targetN := 32 }).state.targetN = 32 :=
  ⟨rfl, rfl, rfl, rfl⟩

/-- C17, amended: for every prior state and valid shape variant, `setup` returns
with `tot_num_walkers == 0`, and `targetN_per_TG` and `targetN` have the values
they had before the call. -/
theorem setup_resets_population (s : SharedWalkerSet)
    (h : s.walkerType = .CLOSED ∨ s.walkerType = .COLLINEAR ∨ s.walkerType = .NONCOLLINEAR) :
    (setup s).isReturned = true ∧
    (setup s).state.tot_num_walkers = 0 ∧
    (setup s).state.targetN_per_TG = s.targetN_per_TG ∧
    (setup s).state.targetN = s.targetN := by
  obtain ⟨desc, nrow, ncol, ndim_bp, hs⟩ := setupShape_of_valid s h
  rw [setup_of_shape s desc nrow ncol ndim_bp hs]
  exact ⟨rfl, rfl, rfl, rfl⟩

/-- Witness of C17, amended: a collinear walker set with targets 8 and 32. -/
theorem setup_resets_population_witness :
    (setup { unconfigured .COLLINEAR 4 2 2 0 with
      tot_num_walkers := 8, targetN_per_TG := 8, targetN := 32 }).state.tot_num_walkers = 0 ∧
    (setup { unconfigured .COLLINEAR 4 2 2 0 with
      tot_num_walkers := 8, targetN_per_TG := 8, targetN := 32 }).state.targetN = 32 :=
  have h := setup_resets_population { unconfigured .COLLINEAR 4 2 2 0 with
    tot_num_walkers := 8, targetN_per_TG := 8, targetN := 32 } (Or.inr (Or.inl rfl))
  ⟨h.2.1, h.2.2.2⟩

/-- C18: for every configured value `m` of `min_weight`, negative values and zero
included, and every valid shape variant, after `setup`
`min_weight == max(|m|, 0.01)`, hence `min_weight >= 0.01`; and `min_weight` is
unchanged when `m >= 0.01`. -/
theorem setup_min_weight (s : SharedWalkerSet)
    (h : s.walkerType = .CLOSED ∨ s.walkerType = .COLLINEAR ∨ s.walkerType = .NONCOLLINEAR) :
    (setup s).isReturned = true ∧
    (setup s).state.min_weight = max |s.min_weight| (1 / 100) ∧
    1 / 100 ≤ (setup s).state.min_weight ∧
    (1 / 100 ≤ s.min_weight → (setup s).state.min_weight = s.min_weight) := by
  obtain ⟨desc, nrow, ncol, ndim_bp, hs⟩ := setupShape_of_valid s h
  rw [setup_of_shape s desc nrow ncol ndim_bp hs]
  refine ⟨rfl, rfl, le_max_right _ _, ?_⟩
  intro hm
  simp only [Outcome.state]
  have h0 : 0 ≤ s.min_weight := le_trans (by norm_num) hm
  rw [abs_of_nonneg h0]
  exact max_eq_left hm

/-- Witness of C18: a configured `min_weight` of `-1/2` becomes `1/2`. -/
theorem setup_min_weight_witness :
    (setup { unconfigured .CLOSED 4 2 2 0 with min_weight := -1 / 2 }).state.min_weight
      = 1 / 2 :=
  (setup_min_weight { unconfigured .CLOSED 4 2 2 0 with min_weight := -1 / 2 }
    (Or.inl rfl)).2.1.trans (by norm_num [unconfigured, abs_of_neg])

/-! ## The layout is fixed after `setup` -/

theorem popControlStats_layout (coll : Collaborators) (tg : TaskGroup) (s : SharedWalkerSet)
    (cd : List ComplexType) : layoutOf (popControlStats coll tg s cd).1 = layoutOf s := by
  unfold popControlStats scaleWeight layoutOf
  cases tg.root <;> simp

theorem popControlBalance_layout (coll : Collaborators) (s : SharedWalkerSet)
    (W : List (List ComplexType)) (cd : List ComplexType)
    (hlb : ∀ st W, layoutOf (coll.loadBalance st W) = layoutOf st) :
    layoutOf (popControlBalance coll s W cd).state.1 = layoutOf s := by
  unfold popControlBalance
  simp only
  split
  · exact hlb s W
  · exact hlb s W

/-- C19: `reserve`, `resize` and `clean` never modify `walker_size`,
`walker_memory_usage`, the walker descriptor or any entry of `data_displ`, and
neither does `popControl`, on return or on abort, when the branching and
load-balancing routines it calls do not modify them. -/
theorem layout_fixed (s : SharedWalkerSet) :
    (∀ n, layoutOf (reserve n s) = layoutOf s) ∧
    (∀ tg n, layoutOf (resize tg n s).state = layoutOf s) ∧
    layoutOf (clean s).1 = layoutOf s ∧
    (∀ coll tg,
      (∀ st W, layoutOf (coll.SerialBranching st W).1 = layoutOf st) →
      (∀ st W, layoutOf (coll.loadBalance st W) = layoutOf st) →
      layoutOf (popControl coll tg s).state.1 = layoutOf s) := by
  have hres : ∀ n, layoutOf (reserve n s) = layoutOf s := by
    intro n
    unfold reserve
    split <;> rfl
  refine ⟨hres, ?_, rfl, ?_⟩
  · intro tg n
    by_cases h0 : s.tot_num_walkers = 0
    · unfold resize
      rw [if_pos h0]
      rfl
    · rw [resize_state tg n s h0]
      have : layoutOf (resizeFill tg n (reserve n s)) = layoutOf (reserve n s) := by
        unfold resizeFill
        split
        · split <;> rfl
        · rfl
      exact this.trans (hres n)
  · intro coll tg hbr hlb
    have hst := popControlStats_layout coll tg s (List.replicate 7 ComplexType.zero)
    unfold popControl
    simp only
    split
    · rfl
    · split
      · rw [popControlBalance_layout _ _ _ _ hlb]
        cases tg.root
        · exact hst
        · exact (hbr _ _).trans hst
      · split
        · exact hst
        · rw [popControlBalance_layout _ _ _ _ hlb]
          exact hst

/-- Witness of C19: `popControl` with collaborators that branch and move no walker
leaves the layout of the three-walker set as it was. -/
theorem layout_fixed_witness :
    layoutOf (popControl (passive (statsWith 10)) singleGroup threeWeights).state.1
      = layoutOf threeWeights :=
  (layout_fixed threeWeights).2.2.2 (passive (statsWith 10)) singleGroup
    (fun _ _ => rfl) (fun _ _ => rfl)

/-! ## Work partition of the kernels of `afqmc_sys` -/

theorem mem_overlapsLoop (g r : Nat) :
    ∀ (k n0 n sp : Nat),
      (n, sp) ∈ afqmc_sys.overlapsLoop g r k n0 ↔
        n0 ≤ n ∧ n < n0 + k ∧ sp < 2 ∧ n % g = r := by
  intro k
  induction k with
  | zero =>
    intro n0 n sp
    simp only [afqmc_sys.overlapsLoop, List.not_mem_nil, false_iff]
    omega
  | succ k ih =>
    intro n0 n sp
    simp only [afqmc_sys.overlapsLoop]
    by_cases hc : n0 % g = r
    · rw [if_neg (not_not.mpr hc)]
      simp only [List.mem_cons, Prod.mk.injEq, ih]
      constructor
      · rintro (⟨h1, h2⟩ | ⟨h1, h2⟩ | h)
        · subst h1; subst h2
          exact ⟨le_refl _, by omega, by omega, hc⟩
        · subst h1; subst h2
          exact ⟨le_refl _, by omega, by omega, hc⟩
        · exact ⟨by omega, by omega, h.2.2.1, h.2.2.2⟩
      · rintro ⟨h1, h2, h3, h4⟩
        by_cases hn : n = n0
        · have : sp = 0 ∨ sp = 1 := by omega
          rcases this with h | h
          · exact Or.inl ⟨hn, h⟩
          · exact Or.inr (Or.inl ⟨hn, h⟩)
        · exact Or.inr (Or.inr ⟨by omega, by omega, h3, h4⟩)
    · rw [if_pos hc, ih]
      constructor
      · rintro ⟨h1, h2, h3, h4⟩
        exact ⟨by omega, by omega, h3, h4⟩
      · rintro ⟨h1, h2, h3, h4⟩
        have hn : n ≠ n0 := by
          intro h
          rw [h] at h4
          exact hc h4
        exact ⟨by omega, by omega, h3, h4⟩

theorem mem_spinLoop (g r : Nat) :
    ∀ (k n0 n sp : Nat),
      (n, sp) ∈ afqmc_sys.spinLoop g r k n0 (2 * n0) ↔
        n0 ≤ n ∧ n < n0 + k ∧ sp < 2 ∧ (2 * n + sp) % g = r := by
  intro k
  induction k with
  | zero =>
    intro n0 n sp
    simp only [afqmc_sys.spinLoop, List.not_mem_nil, false_iff]
    omega
  | succ k ih =>
    intro n0 n sp
    have e : 2 * n0 + 1 + 1 = 2 * (n0 + 1) := by ring
    simp only [afqmc_sys.spinLoop, List.mem_append, e, ih]
    have ha : (n, sp) ∈ (if 2 * n0 % g = r then [(n0, 0)] else []) ↔
        n = n0 ∧ sp = 0 ∧ (2 * n + sp) % g = r := by
      constructor
      · intro h
        split at h
        · rename_i hc
          simp only [List.mem_singleton, Prod.mk.injEq] at h
          obtain ⟨h1, h2⟩ := h
          subst h1; subst h2
          exact ⟨rfl, rfl, hc⟩
        · exact absurd h (List.not_mem_nil _)
      · rintro ⟨h1, h2, h3⟩
        subst h1; subst h2
        rw [Nat.add_zero] at h3
        rw [if_pos h3]
        exact List.mem_singleton.mpr rfl
    have hb : (n, sp) ∈ (if (2 * n0 + 1) % g = r then [(n0, 1)] else []) ↔
        n = n0 ∧ sp = 1 ∧ (2 * n + sp) % g = r := by
      constructor
      · intro h
        split at h
        · rename_i hc
          simp only [List.mem_singleton, Prod.mk.injEq] at h
          obtain ⟨h1, h2⟩ := h
          subst h1; subst h2
          exact ⟨rfl, rfl, hc⟩
        · exact absurd h (List.not_mem_nil _)
      · rintro ⟨h1, h2, h3⟩
        subst h1; subst h2
        rw [if_pos h3]
        exact List.mem_singleton.mpr rfl
    rw [ha, hb]
    constructor
    · rintro ((⟨h1, h2, h3⟩ | ⟨h1, h2, h3⟩) | ⟨h1, h2, h3, h4⟩)
      · exact ⟨by omega, by omega, by omega, h3⟩
      · exact ⟨by omega, by omega, by omega, h3⟩
      · exact ⟨by omega, by omega, h3, h4⟩
    · rintro ⟨h1, h2, h3, h4⟩
      by_cases hn : n = n0
      · have : sp = 0 ∨ sp = 1 := by omega
        rcases this with h | h
        · exact Or.inl (Or.inl ⟨hn, h, h4⟩)
        · exact Or.inl (Or.inr ⟨hn, h, h4⟩)
      · exact Or.inr ⟨by omega, by omega, h3, h4⟩

/-- Counterexample to C20: in `calculate_mixed_density_matrix` with a group of two
members and two walkers, the member of rank 0 writes the alpha field of walker 1,
whose index is 1 modulo 2. -/
theorem mixed_density_matrix_not_by_walker_owner :
    (1, 0) ∈ afqmc_sys.calculate_mixed_density_matrix 2 0 2 ∧ 1 % 2 ≠ 0 := by
  decide

/-- C20, amended: for every group size `g >= 1`, in `calculate_overlaps` the fields
of walker `n` are written only by the member whose rank is `n mod g`; in
`calculate_mixed_density_matrix`, `propagate` and `orthogonalize` the part of spin
component `sp` of walker `n` is written only by the member whose rank is
`(2n + sp) mod g`; both are ranks of the group. -/
theorem kernel_write_owner (g r nwalk : Nat) (hg : 1 ≤ g) :
    (∀ n sp, (n, sp) ∈ afqmc_sys.calculate_overlaps g r nwalk ↔
      n < nwalk ∧ sp < 2 ∧ n % g = r) ∧
    (∀ n sp, (n, sp) ∈ afqmc_sys.calculate_mixed_density_matrix g r nwalk ↔
      n < nwalk ∧ sp < 2 ∧ (2 * n + sp) % g = r) ∧
    (∀ n sp, (n, sp) ∈ afqmc_sys.propagate g r nwalk ↔
      n < nwalk ∧ sp < 2 ∧ (2 * n + sp) % g = r) ∧
    (∀ n sp, (n, sp) ∈ afqmc_sys.orthogonalize g r nwalk ↔
      n < nwalk ∧ sp < 2 ∧ (2 * n + sp) % g = r) ∧
    (∀ n sp : Nat, n % g < g ∧ (2 * n + sp) % g < g) := by
  have hspin : ∀ n sp, (n, sp) ∈ afqmc_sys.spinLoop g r nwalk 0 0 ↔
      n < nwalk ∧ sp < 2 ∧ (2 * n + sp) % g = r := by
    intro n sp
    have h := mem_spinLoop g r nwalk 0 n sp
    simp only [Nat.mul_zero, Nat.zero_add, Nat.zero_le, true_and] at h
    exact h
  refine ⟨?_, hspin, hspin, hspin, fun n sp => ⟨Nat.mod_lt _ hg, Nat.mod_lt _ hg⟩⟩
  intro n sp
  have h := mem_overlapsLoop g r nwalk 0 n sp
  simp only [Nat.zero_add, Nat.zero_le, true_and] at h
  exact h

/-- Witness of C20, amended: with three members and four walkers, the member of
rank 1 writes both overlaps of walker 1 in `calculate_overlaps`, and the beta part
of walker 0 in `propagate`. -/
theorem kernel_write_owner_witness :
    1 ≤ 3 ∧ (1, 0) ∈ afqmc_sys.calculate_overlaps 3 1 4 ∧
    (0, 1) ∈ afqmc_sys.propagate 3 1 4 :=
  have h := kernel_write_owner 3 1 4 (by decide)
  ⟨by decide, (h.1 1 0).mpr (by decide), (h.2.2.1 0 1).mpr (by decide)⟩

/-! ## Record size and walker descriptor -/

/-- Counterexample to C23: for the closed-shell set with `nmo = 4`, `naea = 2` and
`nback_prop = 1`, `setup` gives `walker_size = 43`, whereas
`7 + 2*nrow*ncol + bp_size + 2*nback_prop` is 41. -/
theorem setup_walker_size_not_seven :
    setupShape (unconfigured .CLOSED 4 2 2 1) = some ([4, 2, 0, 1], 4, 2, 4) ∧
    (setup (unconfigured .CLOSED 4 2 2 1)).isReturned = true ∧
    (setup (unconfigured .CLOSED 4 2 2 1)).state.walker_size = 43 ∧
    7 + 2 * 4 * 2 + bp_size 1 4 + 2 * 1 = 41 := by
  decide

/-- C23, amended: for every valid configuration with `nback_prop > 0`, the
`walker_size` computed by `setup` equals
`9 + 2*nrow*ncol + bp_size + 2*nback_prop` with
`bp_size = nback_prop*ndim_bp*ndim_bp`: the seven scalars, `HEAD` and `TAIL`, the
two Slater matrices, the propagators and the two factor arrays. -/
theorem setup_walker_size_back_propagation (s : SharedWalkerSet) (desc : List Int)
    (nrow ncol ndim_bp : Int)
    (hshape : setupShape s = some (desc, nrow, ncol, ndim_bp)) (hbp : 0 < s.nback_prop) :
    (setup s).isReturned = true ∧
    (setup s).state.walker_size =
      9 + 2 * nrow * ncol + bp_size s.nback_prop ndim_bp + 2 * s.nback_prop ∧
    bp_size s.nback_prop ndim_bp = s.nback_prop * ndim_bp * ndim_bp := by
  rw [setup_of_shape s desc nrow ncol ndim_bp hshape,
    setupDispl_bp s.nback_prop nrow ncol ndim_bp hbp]
  refine ⟨rfl, ?_, rfl⟩
  simp only [Outcome.state, bp_size]
  ring

/-- Witness of C23, amended: closed shell, `nmo = 4`, `naea = 2`, `nback_prop = 1`. -/
theorem setup_walker_size_back_propagation_witness :
    setupShape (unconfigured .CLOSED 4 2 2 1) = some ([4, 2, 0, 1], 4, 2, 4) ∧
    0 < (unconfigured .CLOSED 4 2 2 1).nback_prop ∧
    (setup (unconfigured .CLOSED 4 2 2 1)).state.walker_size = 43 :=
  ⟨rfl, by decide,
    (setup_walker_size_back_propagation (unconfigured .CLOSED 4 2 2 1) [4, 2, 0, 1] 4 2 4
      rfl (by decide)).2.1.trans (by decide)⟩

/-- C24: for each of the three valid shape variants, the descriptor
`{d0, d1, d2, d3}` stored by `setup` and the dimensions it lays the record out with
satisfy `nrow == d0`, `ncol == d1 + d2`, `ndim_bp == d0` and `d3 == nback_prop`, so
the `SM` slot has size `d0*(d1+d2)` and the propagator slot, present when
`nback_prop > 0`, has size `d3*d0*d0`. -/
theorem setup_descriptor_consistent (s : SharedWalkerSet)
    (h : s.walkerType = .CLOSED ∨ s.walkerType = .COLLINEAR ∨ s.walkerType = .NONCOLLINEAR) :
    ∃ d0 d1 d2 d3 nrow ncol ndim_bp,
      setupShape s = some ([d0, d1, d2, d3], nrow, ncol, ndim_bp) ∧
      (setup s).isReturned = true ∧
      (setup s).state.wlk_desc = [d0, d1, d2, d3] ∧
      nrow = d0 ∧ ncol = d1 + d2 ∧ ndim_bp = d0 ∧ d3 = s.nback_prop ∧
      (setup s).state.data_displ.WEIGHT - (setup s).state.data_displ.SM = d0 * (d1 + d2) ∧
      bp_size s.nback_prop ndim_bp = d3 * d0 * d0 ∧
      (0 < s.nback_prop →
        (setup s).state.data_displ.HEAD - (setup s).state.data_displ.PROPAGATORS
          = d3 * d0 * d0) := by
  have key : ∀ d0 d1 d2 nrow ncol ndim_bp,
      setupShape s = some ([d0, d1, d2, s.nback_prop], nrow, ncol, ndim_bp) →
      nrow = d0 → ncol = d1 + d2 → ndim_bp = d0 →
      ∃ d0 d1 d2 d3 nrow ncol ndim_bp,
        setupShape s = some ([d0, d1, d2, d3], nrow, ncol, ndim_bp) ∧
        (setup s).isReturned = true ∧
        (setup s).state.wlk_desc = [d0, d1, d2, d3] ∧
        nrow = d0 ∧ ncol = d1 + d2 ∧ ndim_bp = d0 ∧ d3 = s.nback_prop ∧
        (setup s).state.data_displ.WEIGHT - (setup s).state.data_displ.SM = d0 * (d1 + d2) ∧
        bp_size s.nback_prop ndim_bp = d3 * d0 * d0 ∧
        (0 < s.nback_prop →
          (setup s).state.data_displ.HEAD - (setup s).state.data_displ.PROPAGATORS
            = d3 * d0 * d0) := by
    intro d0 d1 d2 nrow ncol ndim_bp hs h1 h2 h3
    refine ⟨d0, d1, d2, s.nback_prop, nrow, ncol, ndim_bp, hs, ?_⟩
    rw [setup_of_shape s _ nrow ncol ndim_bp hs]
    refine ⟨rfl, rfl, h1, h2, h3, rfl, ?_, ?_, ?_⟩
    · simp only [Outcome.state, setupDispl]
      split <;> simp [h1, h2]
    · rw [h3]; rfl
    · intro hbp
      rw [setupDispl_bp _ _ _ _ hbp]
      simp only [Outcome.state]
      rw [h3]
      ring
  rcases h with h | h | h
  · exact key s.NMO s.NAEA 0 s.NMO s.NAEA s.NMO (by simp [setupShape, h]) rfl (by ring) rfl
  · exact key s.NMO s.NAEA s.NAEB s.NMO (s.NAEA + s.NAEB) s.NMO (by simp [setupShape, h])
      rfl rfl rfl
  · exact key (2 * s.NMO) (s.NAEA + s.NAEB) 0 (s.NMO + s.NMO) (s.NAEA + s.NAEB) (s.NMO * 2)
      (by simp [setupShape, h]) (by ring) (by ring) (by ring)

/-- Witness of C24: a non-collinear set with `nmo = 4`, `naea = 2`, `naeb = 1` stores
the descriptor `{8, 3, 0, 1}`. -/
theorem setup_descriptor_consistent_witness :
    (setup (unconfigured .NONCOLLINEAR 4 2 1 1)).state.wlk_desc = [8, 3, 0, 1] ∧
    ∃ d0 d1 d2 d3 nrow ncol ndim_bp,
      setupShape (unconfigured .NONCOLLINEAR 4 2 1 1)
        = some ([d0, d1, d2, d3], nrow, ncol, ndim_bp) ∧
      nrow = d0 ∧ ncol = d1 + d2 ∧ ndim_bp = d0 :=
  have h := setup_descriptor_consistent (unconfigured .NONCOLLINEAR 4 2 1 1)
    (Or.inr (Or.inr rfl))
  ⟨rfl, by
    obtain ⟨d0, d1, d2, d3, nrow, ncol, ndim_bp, h1, _, _, h4, h5, h6, _⟩ := h
    exact ⟨d0, d1, d2, d3, nrow, ncol, ndim_bp, h1, h4, h5, h6⟩⟩

/-! ## Partition of the work units among the members -/

theorem sum_indicator_range (a : Nat) :
    ∀ g : Nat, ((List.range g).map fun r => if a = r then 1 else 0).sum
      = if a < g then 1 else 0 := by
  intro g
  induction g with
  | zero => simp
  | succ g ih =>
    rw [List.range_succ, List.map_append, List.sum_append, ih]
    simp only [List.map_cons, List.map_nil, List.sum_cons, List.sum_nil, Nat.add_zero]
    by_cases h1 : a < g
    · rw [if_pos h1, if_neg (by omega), if_pos (by omega)]
    · by_cases h2 : a = g
      · rw [if_neg h1, if_pos h2, if_pos (by omega)]
      · rw [if_neg h1, if_neg h2, if_neg (by omega)]

theorem length_spinLoop_sum (g : Nat) (hg : 1 ≤ g) :
    ∀ k n0 cnt : Nat,
      ((List.range g).map fun r => (afqmc_sys.spinLoop g r k n0 cnt).length).sum = 2 * k := by
  intro k
  induction k with
  | zero =>
    intro n0 cnt
    simp [afqmc_sys.spinLoop]
  | succ k ih =>
    intro n0 cnt
    have hlen : ∀ r, (afqmc_sys.spinLoop g r (k + 1) n0 cnt).length =
        (if cnt % g = r then 1 else 0) + (if (cnt + 1) % g = r then 1 else 0)
          + (afqmc_sys.spinLoop g r k (n0 + 1) (cnt + 1 + 1)).length := by
      intro r
      simp only [afqmc_sys.spinLoop, List.length_append]
      congr 1
      congr 1
      · split <;> rfl
      · split <;> rfl
    simp only [hlen, List.sum_map_add]
    rw [sum_indicator_range, sum_indicator_range, ih,
      if_pos (Nat.mod_lt _ hg), if_pos (Nat.mod_lt _ hg)]
    omega

theorem nodup_spinLoop (g r : Nat) :
    ∀ k n0 : Nat, (afqmc_sys.spinLoop g r k n0 (2 * n0)).Nodup := by
  intro k
  induction k with
  | zero =>
    intro n0
    simp [afqmc_sys.spinLoop]
  | succ k ih =>
    intro n0
    have e : 2 * n0 + 1 + 1 = 2 * (n0 + 1) := by ring
    simp only [afqmc_sys.spinLoop, e]
    have hrest : ∀ u, u ∈ afqmc_sys.spinLoop g r k (n0 + 1) (2 * (n0 + 1)) → n0 + 1 ≤ u.1 := by
      intro u hu
      exact ((mem_spinLoop g r k (n0 + 1) u.1 u.2).mp hu).1
    have ha : ∀ u, u ∈ (if 2 * n0 % g = r then [(n0, 0)] else []) → u = (n0, 0) := by
      intro u hu
      split at hu
      · exact List.mem_singleton.mp hu
      · exact absurd hu (List.not_mem_nil _)
    have hb : ∀ u, u ∈ (if (2 * n0 + 1) % g = r then [(n0, 1)] else []) → u = (n0, 1) := by
      intro u hu
      split at hu
      · exact List.mem_singleton.mp hu
      · exact absurd hu (List.not_mem_nil _)
    rw [List.nodup_append]
    refine ⟨?_, ih (n0 + 1), ?_⟩
    · rw [List.nodup_append]
      refine ⟨?_, ?_, ?_⟩
      · split
        · exact List.nodup_singleton _
        · exact List.nodup_nil
      · split
        · exact List.nodup_singleton _
        · exact List.nodup_nil
      · intro u hu1 hu2
        have h1 := ha u hu1
        have h2 := hb u hu2
        rw [h1] at h2
        have h3 : (0 : Nat) = 1 := congrArg Prod.snd h2
        exact absurd h3 (by decide)
    · intro u hu1 hu2
      have h3 := hrest u hu2
      rcases List.mem_append.mp hu1 with h | h
      · rw [ha u h] at h3
        simp only at h3
        omega
      · rw [hb u h] at h3
        simp only at h3
        omega

theorem unitPartition_spinLoop (g nwalk : Nat) (hg : 1 ≤ g) :
    UnitPartition (fun g r nwalk => afqmc_sys.spinLoop g r nwalk 0 0) g nwalk := by
  have hmem : ∀ r n sp, (n, sp) ∈ afqmc_sys.spinLoop g r nwalk 0 0 ↔
      n < nwalk ∧ sp < 2 ∧ (2 * n + sp) % g = r := by
    intro r n sp
    have h := mem_spinLoop g r nwalk 0 n sp
    simp only [Nat.mul_zero, Nat.zero_add, Nat.zero_le, true_and] at h
    exact h
  refine ⟨hmem, fun r => nodup_spinLoop g r nwalk 0, ?_, ?_, length_spinLoop_sum g hg nwalk 0 0⟩
  · intro n sp hn hsp
    refine ⟨(2 * n + sp) % g, ⟨Nat.mod_lt _ hg, (hmem _ n sp).mpr ⟨hn, hsp, rfl⟩⟩, ?_⟩
    rintro r ⟨_, hr⟩
    exact ((hmem r n sp).mp hr).2.2.symm
  · intro r r' hne u hu hu'
    have h1 := ((hmem r u.1 u.2).mp hu).2.2
    have h2 := ((hmem r' u.1 u.2).mp hu').2.2
    exact hne (h1.symm.trans h2)

/-- C25: in `calculate_mixed_density_matrix`, `propagate` and `orthogonalize`, for
every walker count `nwalk` and group size `g >= 1`, each work unit (walker `n`,
spin `sp` in `{0, 1}`) is processed by exactly one member, the one with rank
`(2n + sp) mod g`, and once: the units of distinct ranks are disjoint and the ranks
`0..g-1` process all `2*nwalk` units. -/
theorem spin_units_partition (g nwalk : Nat) (hg : 1 ≤ g) :
    UnitPartition afqmc_sys.calculate_mixed_density_matrix g nwalk ∧
    UnitPartition afqmc_sys.propagate g nwalk ∧
    UnitPartition afqmc_sys.orthogonalize g nwalk :=
  ⟨unitPartition_spinLoop g nwalk hg, unitPartition_spinLoop g nwalk hg,
    unitPartition_spinLoop g nwalk hg⟩

/-- Witness of C25: three members and four walkers; the unit (walker 2, beta) is the
member of rank 2's, since `5 mod 3 = 2`. -/
theorem spin_units_partition_witness :
    1 ≤ 3 ∧ (2, 1) ∈ afqmc_sys.propagate 3 2 4 ∧
    ((List.range 3).map fun r => (afqmc_sys.orthogonalize 3 r 4).length).sum = 2 * 4 :=
  have h := spin_units_partition 3 4 (by decide)
  ⟨by decide, (h.2.1.1 2 2 1).mpr (by decide), h.2.2.2.2.2.2⟩

/-! ## `checkAFQMCInfoState` and the message sizes -/

/-- C28: `checkAFQMCInfoState` returns true if and only if `NMO >= 1`,
`1 <= NAEA <= NMO` and `1 <= NAEB <= NMO`; a default-constructed `AFQMCInfo` and any
configuration with `NAEB = 0` are reported invalid; and the check leaves the
configuration as it was. -/
theorem checkAFQMCInfoState_iff (a : AFQMCInfo) :
    (a.checkAFQMCInfoState.1 = true ↔
      1 ≤ a.NMO ∧ (1 ≤ a.NAEA ∧ a.NAEA ≤ a.NMO) ∧ (1 ≤ a.NAEB ∧ a.NAEB ≤ a.NMO)) ∧
    AFQMCInfo.default.checkAFQMCInfoState.1 = false ∧
    (AFQMCInfo.default.NMO = -1 ∧ AFQMCInfo.default.NAEA = -1 ∧ AFQMCInfo.default.NAEB = -1) ∧
    (a.NAEB = 0 → a.checkAFQMCInfoState.1 = false) ∧
    a.checkAFQMCInfoState.2 = a := by
  refine ⟨?_, by decide, ⟨rfl, rfl, rfl⟩, ?_, ?_⟩
  · unfold AFQMCInfo.checkAFQMCInfoState
    split
    · rename_i h
      simp only [Bool.false_eq_true, false_iff]
      omega
    · rename_i h
      simp only [true_iff]
      omega
  · intro h0
    unfold AFQMCInfo.checkAFQMCInfoState
    rw [if_pos (by omega)]
  · unfold AFQMCInfo.checkAFQMCInfoState
    split <;> rfl

/-- Witness of C28: four orbitals with two electrons of each spin are valid, and the
same with no beta electron is not. -/
theorem checkAFQMCInfoState_iff_witness :
    (AFQMCInfo.checkAFQMCInfoState ⟨"miniAFQMC", 4, 2, 2, 0⟩).1 = true ∧
    (AFQMCInfo.checkAFQMCInfoState ⟨"miniAFQMC", 4, 2, 0, 4⟩).1 = false :=
  ⟨(checkAFQMCInfoState_iff ⟨"miniAFQMC", 4, 2, 2, 0⟩).1.mpr (by decide),
    (checkAFQMCInfoState_iff ⟨"miniAFQMC", 4, 2, 0, 4⟩).2.2.2.1 rfl⟩

/-- C27, as the code has it: `ma::send`, `ma::recv`, `ma::isend` and `ma::irecv`
move exactly the storage of the array, and `ma::bcast` moves twice as many bytes;
for three elements of sixteen bytes that is 96 bytes through an array of 48. -/
theorem bcast_twice_storage (num_elements sizeofType : Nat) :
    (ma.send num_elements sizeofType).bytes = storageBytes num_elements sizeofType ∧
    (ma.recv num_elements sizeofType).bytes = storageBytes num_elements sizeofType ∧
    (ma.isend num_elements sizeofType).bytes = storageBytes num_elements sizeofType ∧
    (ma.irecv num_elements sizeofType).bytes = storageBytes num_elements sizeofType ∧
    (ma.bcast num_elements sizeofType).bytes = 2 * storageBytes num_elements sizeofType ∧
    (ma.bcast 3 16).bytes = 96 ∧ storageBytes 3 16 = 48 ∧ (ma.send 3 16).bytes = 48 := by
  refine ⟨?_, ?_, ?_, ?_, ?_, by decide, by decide, by decide⟩ <;>
    simp only [ma.send, ma.recv, ma.isend, ma.irecv, ma.bcast, MPIBuffer.bytes, MPI_CHAR,
      storageBytes, Nat.mul_one]
  ring

/-! ## `allgather_matrix` by columns -/

theorem ComplexType.add_zero_right (a : ComplexType) : a.add ComplexType.zero = a := by
  cases a
  simp [ComplexType.add, ComplexType.zero]

theorem ComplexType.add_zero_left (a : ComplexType) : ComplexType.zero.add a = a := by
  cases a
  simp [ComplexType.add, ComplexType.zero]

theorem rankSum_zero (f : Nat → ComplexType) :
    ∀ p : Nat, (∀ q, q < p → f q = ComplexType.zero) → rankSum p f = ComplexType.zero := by
  intro p
  induction p with
  | zero => intro _; rfl
  | succ p ih =>
    intro h
    simp only [rankSum]
    rw [ih (fun q hq => h q (by omega)), h p (by omega)]
    exact ComplexType.add_zero_right _

theorem rankSum_single (f : Nat → ComplexType) (q : Nat) :
    ∀ p : Nat, q < p → (∀ q', q' < p → q' ≠ q → f q' = ComplexType.zero) →
      rankSum p f = f q := by
  intro p
  induction p with
  | zero => intro h; omega
  | succ p ih =>
    intro hq h
    simp only [rankSum]
    by_cases hqp : q = p
    · subst hqp
      rw [rankSum_zero f q (fun q' hq' => h q' (by omega) (by omega))]
      exact ComplexType.add_zero_left _
    · rw [ih (by omega) (fun q' hq' hne => h q' (by omega) hne), h p (by omega) (Ne.symm hqp)]
      exact ComplexType.add_zero_right _

/-- C26: `allgather_matrix` with type `byCols` on `p` ranks, each with an `r`-by-`c`
source `S_q` and an `r`-by-`p*c` destination, returns, and on every rank
`dest[i][q*c + j] == S_q[i][j]` for all `q < p`, `i < r`, `j < c`, whatever the
destination held before; a type that is neither `byRows` nor `byCols` aborts with
the destinations untouched. -/
theorem allgather_matrix_byCols (byRows byCols : Int) (p r c : Nat)
    (source dest : Nat → MultiArray2D) (hne : byCols ≠ byRows)
    (hsrc : ∀ q, q < p → (source q).shape0 = r ∧ (source q).shape1 = c)
    (hdst : ∀ q, q < p → (dest q).shape0 = r ∧ (dest q).shape1 = p * c) :
    (∃ out, allgather_matrix byRows byCols p source dest byCols = .returned out ∧
      ∀ rank, rank < p →
        (out rank).shape0 = r ∧ (out rank).shape1 = p * c ∧
        ∀ q i j, q < p → i < r → j < c →
          (out rank).elem i (q * c + j) = (source q).elem i j) ∧
    ∀ type, type ≠ byRows → type ≠ byCols →
      allgather_matrix byRows byCols p source dest type
        = .aborted " Error in ma::gather_matrix. " dest := by
  constructor
  · have hshape : ((List.range p).all fun q =>
        (source q).shape0 == (dest q).shape0 && (source q).shape1 * p == (dest q).shape1)
        = true := by
      rw [List.all_eq_true]
      intro q hq
      have hq' := List.mem_range.mp hq
      rw [(hsrc q hq').1, (hsrc q hq').2, (hdst q hq').1, (hdst q hq').2]
      simp [Nat.mul_comm]
    refine ⟨_, by
      unfold allgather_matrix
      rw [if_neg hne, if_pos rfl, if_pos hshape], ?_⟩
    intro rank hrank
    refine ⟨(hdst rank hrank).1, (hdst rank hrank).2, ?_⟩
    intro q i j hq hi hj
    show MPI_Allreduce_SUM p (fun q' => allgather_byCols_local q' (source q')) i (q * c + j) = _
    unfold MPI_Allreduce_SUM
    rw [rankSum_single _ q p hq]
    · simp only [allgather_byCols_local]
      rw [(hsrc q hq).2, if_pos ⟨by omega, by rw [Nat.succ_mul]; omega⟩]
      congr 1
      omega
    · intro q' hq' hneq
      simp only [allgather_byCols_local]
      rw [(hsrc q' hq').2, if_neg]
      rintro ⟨h1, h2⟩
      rw [Nat.succ_mul] at h2
      rcases Nat.lt_or_gt_of_ne hneq with hlt | hgt
      · have := rows_le c (Nat.succ_le_of_lt hlt)
        omega
      · have := rows_le c (Nat.succ_le_of_lt hgt)
        omega
  · intro type h1 h2
    unfold allgather_matrix
    rw [if_neg h1, if_neg h2]

/-- Witness of C26: two ranks gathering two-by-two matrices into two-by-four
destinations that held `-1`; on rank 0 the entry `(1, 3)` is the entry `(1, 1)` of the
source of rank 1. -/
theorem allgather_matrix_byCols_witness :
    (1 : Int) ≠ 0 ∧
    ∃ out, allgather_matrix 0 1 2 gatherSource gatherDest 1 = .returned out ∧
      (out 0).elem 1 3 = (gatherSource 1).elem 1 1 :=
  ⟨by decide, by
    obtain ⟨out, h1, h2⟩ := (allgather_matrix_byCols 0 1 2 2 2 gatherSource gatherDest
      (by decide) (fun _ _ => ⟨rfl, rfl⟩) (fun _ _ => ⟨rfl, rfl⟩)).1
    exact ⟨out, h1, (h2 0 (by decide)).2.2 1 1 1 (by decide) (by decide) (by decide)⟩⟩

/-! ## The `all_reduce` test -/

theorem sum_range_const (c : Int) (p : Nat) :
    ((List.range p).map fun _ => c).sum = c * p := by
  induction p with
  | zero => simp
  | succ p ih =>
    rw [List.range_succ, List.map_append, List.sum_append, ih]
    simp only [List.map_cons, List.map_nil, List.sum_cons, List.sum_nil]
    push_cast
    ring

theorem sum_range_id (p : Nat) :
    ((List.range p).map fun q : Nat => (q : Int)).sum * 2 = (p : Int) * ((p : Int) - 1) := by
  induction p with
  | zero => simp
  | succ p ih =>
    rw [List.range_succ, List.map_append, List.sum_append, add_mul, ih]
    simp only [List.map_cons, List.map_nil, List.sum_cons, List.sum_nil]
    push_cast
    ring

theorem all_reduce_iota (p count i : Nat) (hi : i < count) :
    (mpi3.all_reduce p (fun _ => mpi3.iota count) count)[i]? = some ((i : Int) * p) := by
  unfold mpi3.all_reduce
  rw [List.getElem?_map, List.getElem?_range hi]
  simp only [Option.map_some']
  have : (mpi3.iota count).getD i 0 = (i : Int) := by
    unfold mpi3.iota
    rw [List.getD_eq_getElem?_getD, List.getElem?_map, List.getElem?_range hi]
    rfl
  rw [this, sum_range_const]

/-- C22: with `all_reduce` the collective sum, for every world size `p >= 2` and
every `count`, when each rank sends `[0, 1, ..., count-1]` each rank receives
`recv[i] == i*p`, and `all_reduce_value` of each rank's own rank number with plus
is `p*(p-1)/2`; the assertions of the test hold. -/
theorem all_reduce_sum (p count : Nat) (hp : 2 ≤ p) :
    (mpi3.all_reduce p (fun _ => mpi3.iota count) count).length = count ∧
    (∀ i, i < count →
      (mpi3.all_reduce p (fun _ => mpi3.iota count) count)[i]? = some ((i : Int) * p)) ∧
    mpi3.all_reduce_value p (fun q => (q : Int)) = (p : Int) * ((p : Int) - 1) / 2 ∧
    mpi3.main p count = some true := by
  have hlen : (mpi3.all_reduce p (fun _ => mpi3.iota count) count).length = count := by
    simp [mpi3.all_reduce]
  have hval : mpi3.all_reduce_value p (fun q => (q : Int)) = (p : Int) * ((p : Int) - 1) / 2 := by
    unfold mpi3.all_reduce_value
    rw [← sum_range_id p]
    exact (Int.mul_ediv_cancel _ (by decide : (2 : Int) ≠ 0)).symm
  refine ⟨hlen, fun i hi => all_reduce_iota p count i hi, hval, ?_⟩
  unfold mpi3.main
  rw [if_pos (by omega)]
  have h1 : mpi3.main_all_reduce p count = true := by
    unfold mpi3.main_all_reduce
    simp only
    rw [List.all_eq_true]
    intro i hi
    have hi' : i < count := by
      rw [hlen] at hi
      exact List.mem_range.mp hi
    rw [List.getD_eq_getElem?_getD, all_reduce_iota p count i hi']
    simp
  have h2 : mpi3.main_all_reduce_value p = true := by
    unfold mpi3.main_all_reduce_value
    rw [hval]
    simp
  rw [h1, h2]
  rfl

/-- Witness of C22: a world of eight ranks and the 120 entries of the test. -/
theorem all_reduce_sum_witness :
    2 ≤ 8 ∧ (mpi3.all_reduce 8 (fun _ => mpi3.iota 120) 120)[7]? = some 56 ∧
    mpi3.all_reduce_value 8 (fun q => (q : Int)) = 28 ∧ mpi3.main 8 120 = some true :=
  have h := all_reduce_sum 8 120 (by decide)
  ⟨by decide, h.2.1 7 (by decide), h.2.2.1, h.2.2.2⟩

/-! ## PAIR branching -/

namespace PairBranching

theorem totalWeight_byWeight (pop : List Walker) :
    totalWeight (byWeight pop) = totalWeight pop := by
  unfold totalWeight byWeight
  exact List.Perm.sum_eq (List.Perm.map _ (List.perm_insertionSort _ pop))

theorem byWeight_toy : byWeight toy = toy := by
  norm_num [byWeight, toy, List.insertionSort, List.orderedInsert]

theorem pairStep_of_byWeight (u : ℚ) (pop : List Walker) (lo hi : Walker)
    (mid : List Walker) (h : byWeight pop = lo :: (mid ++ [hi])) :
    pairStep u pop =
      ⟨if u < hi.weight / (lo.weight + hi.weight) then hi.id else lo.id,
          (lo.weight + hi.weight) / 2⟩ ::
        (mid ++ [⟨if u < hi.weight / (lo.weight + hi.weight) then hi.id else lo.id,
          (lo.weight + hi.weight) / 2⟩]) := by
  unfold pairStep
  rw [h]
  cases hm : mid ++ [hi] with
  | nil => exact absurd hm (by simp)
  | cons v rest =>
    simp only
    have h1 : (v :: rest).getLastD lo = hi := by
      rw [← hm]
      simp
    have h2 : (v :: rest).dropLast = mid := by
      rw [← hm]
      simp
    rw [h1, h2]

theorem totalWeight_pairStep (u : ℚ) (pop : List Walker) :
    totalWeight (pairStep u pop) = totalWeight pop := by
  rw [← totalWeight_byWeight pop]
  cases hs : byWeight pop with
  | nil => simp [pairStep, hs]
  | cons lo l =>
    cases l with
    | nil => simp [pairStep, hs]
    | cons v rest =>
      have hl : v :: rest = (v :: rest).dropLast ++ [(v :: rest).getLast (List.cons_ne_nil _ _)] :=
        (List.dropLast_append_getLast (List.cons_ne_nil v rest)).symm
      rw [hl] at hs ⊢
      rw [pairStep_of_byWeight u pop lo _ _ hs]
      simp only [totalWeight, List.map_cons, List.map_append, List.map_nil, List.sum_cons,
        List.sum_append, List.sum_nil]
      ring

theorem pairBranching_some (mn mx : ℚ) :
    ∀ (us : List ℚ) (pop pop' : List Walker), pairBranching mn mx us pop = some pop' →
      totalWeight pop' = totalWeight pop ∧ ∀ w ∈ pop', mn ≤ w.weight ∧ w.weight ≤ mx := by
  have hall : ∀ pop : List Walker, pop.all (inRange mn mx) = true →
      ∀ w ∈ pop, mn ≤ w.weight ∧ w.weight ≤ mx := by
    intro pop h w hw
    have := List.all_eq_true.mp h w hw
    simpa [inRange] using this
  intro us
  induction us with
  | nil =>
    intro pop pop' h
    unfold pairBranching at h
    split at h
    · rename_i hin
      injection h with h
      subst h
      exact ⟨rfl, hall _ hin⟩
    · exact Option.noConfusion h
  | cons u us ih =>
    intro pop pop' h
    unfold pairBranching at h
    split at h
    · rename_i hin
      injection h with h
      subst h
      exact ⟨rfl, hall _ hin⟩
    · obtain ⟨h1, h2⟩ := ih _ _ h
      exact ⟨h1.trans (totalWeight_pairStep u pop), h2⟩

theorem pairBranching_toy (u : ℚ) (us : List ℚ) :
    pairBranching (1 / 20) 2 (u :: us) toy =
      some [⟨if u < 3 / (1 / 1000 + 3) then 3 else 0, 3001 / 2000⟩, ⟨1, 1 / 2⟩, ⟨2, 1 / 2⟩,
        ⟨if u < 3 / (1 / 1000 + 3) then 3 else 0, 3001 / 2000⟩] := by
  have hstep : pairStep u toy =
      [⟨if u < 3 / (1 / 1000 + 3) then 3 else 0, 3001 / 2000⟩, ⟨1, 1 / 2⟩, ⟨2, 1 / 2⟩,
        ⟨if u < 3 / (1 / 1000 + 3) then 3 else 0, 3001 / 2000⟩] := by
    rw [pairStep_of_byWeight u toy ⟨0, 1 / 1000⟩ ⟨3, 3⟩ [⟨1, 1 / 2⟩, ⟨2, 1 / 2⟩] byWeight_toy]
    norm_num
  have h0 : toy.all (inRange (1 / 20) 2) = false := by
    norm_num [toy, inRange]
  have h1 : ([⟨if u < 3 / (1 / 1000 + 3) then 3 else 0, 3001 / 2000⟩, ⟨1, 1 / 2⟩, ⟨2, 1 / 2⟩,
        ⟨if u < 3 / (1 / 1000 + 3) then 3 else 0, 3001 / 2000⟩] : List Walker).all
        (inRange (1 / 20) 2) = true := by
    norm_num [inRange]
  unfold pairBranching
  rw [if_neg (by rw [h0]; decide), hstep]
  cases us with
  | nil =>
    unfold pairBranching
    rw [if_pos h1]
  | cons u' us' =>
    unfold pairBranching
    rw [if_pos h1]

theorem byWeight_bounds (pop : List Walker) (lo hi : Walker) (mid : List Walker)
    (h : byWeight pop = lo :: (mid ++ [hi])) :
    ∀ w ∈ pop, lo.weight ≤ w.weight ∧ w.weight ≤ hi.weight := by
  have htotal : IsTotal Walker (fun a b => a.weight ≤ b.weight) :=
    ⟨fun a b => le_total a.weight b.weight⟩
  have htrans : IsTrans Walker (fun a b => a.weight ≤ b.weight) :=
    ⟨fun a b c hab hbc => le_trans hab hbc⟩
  have hsorted : (byWeight pop).Sorted (fun a b => a.weight ≤ b.weight) :=
    List.sorted_insertionSort _ pop
  rw [h] at hsorted
  have hp := List.pairwise_cons.mp hsorted
  have hq := List.pairwise_append.mp hp.2
  intro w hw
  have hw' : w ∈ lo :: (mid ++ [hi]) := by
    rw [← h]
    exact (List.perm_insertionSort _ pop).symm.subset hw
  have hlohi : lo.weight ≤ hi.weight := hp.1 hi (by simp)
  rcases List.mem_cons.mp hw' with hwl | hwr
  · rw [hwl]
    exact ⟨le_refl _, hlohi⟩
  · refine ⟨hp.1 w hwr, ?_⟩
    rcases List.mem_append.mp hwr with hm | hh
    · exact hq.2.2 w hm hi (by simp)
    · rw [List.mem_singleton.mp hh]

/-- C21: in the PAIR strategy as the specification describes it, each pairing takes a
walker of lowest weight and a walker of highest weight and replaces them by two
walkers that carry the same surviving state and whose weights have the same sum, so
every pairing and the whole branching leave the total weight unchanged; when the
branching terminates no walker has a weight outside `[min_weight, max_weight]`; and
for the population `{0.001, 0.5, 0.5, 3.0}` with `min_weight = 0.05`,
`max_weight = 2.0` it terminates, whatever the variates drawn, with total weight
4.001, which is therefore the expected total weight. -/
theorem pair_branching_conserves_weight :
    (∀ (u : ℚ) (pop : List Walker) (lo hi : Walker) (mid : List Walker),
      byWeight pop = lo :: (mid ++ [hi]) →
      (∀ w ∈ pop, lo.weight ≤ w.weight ∧ w.weight ≤ hi.weight) ∧
      ∃ a b, pairStep u pop = a :: (mid ++ [b]) ∧
        a.weight + b.weight = lo.weight + hi.weight ∧ a.id = b.id ∧
        (a.id = lo.id ∨ a.id = hi.id)) ∧
    (∀ (u : ℚ) (pop : List Walker), totalWeight (pairStep u pop) = totalWeight pop) ∧
    (∀ (mn mx : ℚ) (us : List ℚ) (pop pop' : List Walker),
      pairBranching mn mx us pop = some pop' →
      totalWeight pop' = totalWeight pop ∧ ∀ w ∈ pop', mn ≤ w.weight ∧ w.weight ≤ mx) ∧
    totalWeight toy = 4001 / 1000 ∧
    (∀ (u : ℚ) (us : List ℚ), ∃ pop',
      pairBranching (1 / 20) 2 (u :: us) toy = some pop' ∧
      totalWeight pop' = 4001 / 1000 ∧
      ∀ w ∈ pop', 1 / 20 ≤ w.weight ∧ w.weight ≤ 2) := by
  have htoy : totalWeight toy = 4001 / 1000 := by
    norm_num [totalWeight, toy]
  refine ⟨?_, totalWeight_pairStep, pairBranching_some, htoy, ?_⟩
  · intro u pop lo hi mid h
    refine ⟨byWeight_bounds pop lo hi mid h, _, _, pairStep_of_byWeight u pop lo hi mid h, ?_,
      rfl, ?_⟩
    · simp only
      ring
    · simp only
      split
      · exact Or.inr rfl
      · exact Or.inl rfl
  · intro u us
    have hb := pairBranching_toy u us
    obtain ⟨h1, h2⟩ := pairBranching_some (1 / 20) 2 (u :: us) toy _ hb
    exact ⟨_, hb, h1.trans htoy, h2⟩

end PairBranching
end afqmc
end qmcplusplus
